import Mathlib

/-!
Region quadtree of `pawlh/havewemet`

A shallow embedding of `internal/quadtree/quadtree.go` (the generic, rebuilding
variant), of the `Insert` of `quadtree/quadtree.go` (the variant without
rebuild, namespace `variant`), and the properties of insertion and radius
query.

Modelling conventions.

* Coordinates are `float64` in the source; they are read here as exact rational
  numbers (`ℚ`), so that every definition is executable.
* A Go `*node[V]` is `Option (node V)`; `none` is the nil pointer. The array
  `subNodes [4]*node[V]` is the four constructor arguments `sub0 .. sub3`,
  indexed by `Fin 4`.
* The source fixes the node capacity to the constant `maxObjects = 10`, the
  tests build trees of other capacities; the operations take the capacity as
  their first argument `cap` and the theorems instantiate it with
  `maxObjects`.
* The query of unsplit trees is also stated over `float64`: `F64` embeds
  binary64 arithmetic, namespace `f64` the program over it.
* `node.insert` and `node.split` call each other without an a-priori bound, so
  they take a fuel argument that bounds the depth of the call stack of
  `insert`. A run that needs a deeper stack ends in `Fault.outOfFuel`;
  dereferencing a nil child ends in `Fault.nilDeref`.
-/

namespace quadtree

/-- The constant `maxObjects`: the number of points a node holds before it
splits into four sub nodes. -/
def maxObjects : Nat := 10

/-- The two ways a run of the embedded code can fail to produce a value. -/
inductive Fault where
  | outOfFuel
  | nilDeref
deriving DecidableEq, Repr

deriving instance DecidableEq for Except

/-- The struct `Point[V]`. -/
structure Point (V : Type) where
  x : ℚ
  y : ℚ
  Value : V
deriving DecidableEq

/-- The struct `node[V]`: rectangle, held points and the four child pointers. -/
inductive node (V : Type) where
  | mk (x1 y1 x2 y2 : ℚ) (points : List (Point V))
      (sub0 sub1 sub2 sub3 : Option (node V)) : node V

variable {V : Type}

mutual
/-- Equality of nodes is decidable. -/
def node.decEq [DecidableEq V] : (n m : node V) → Decidable (n = m)
  | .mk a b c d ps s0 s1 s2 s3, .mk a1 b1 c1 d1 ps1 t0 t1 t2 t3 =>
    if h : a = a1 ∧ b = b1 ∧ c = c1 ∧ d = d1 ∧ ps = ps1 then
      match node.decEqOpt s0 t0, node.decEqOpt s1 t1, node.decEqOpt s2 t2,
        node.decEqOpt s3 t3 with
      | isTrue h0, isTrue h1, isTrue h2, isTrue h3 =>
        isTrue (by obtain ⟨rfl, rfl, rfl, rfl, rfl⟩ := h; rw [h0, h1, h2, h3])
      | isFalse h0, _, _, _ => isFalse (fun e => h0 (by cases e; rfl))
      | _, isFalse h1, _, _ => isFalse (fun e => h1 (by cases e; rfl))
      | _, _, isFalse h2, _ => isFalse (fun e => h2 (by cases e; rfl))
      | _, _, _, isFalse h3 => isFalse (fun e => h3 (by cases e; rfl))
    else
      isFalse (fun e => h (by cases e; exact ⟨rfl, rfl, rfl, rfl, rfl⟩))
/-- Equality of child pointers is decidable. -/
def node.decEqOpt [DecidableEq V] : (s t : Option (node V)) → Decidable (s = t)
  | none, none => isTrue rfl
  | none, some _ => isFalse (fun e => by cases e)
  | some _, none => isFalse (fun e => by cases e)
  | some n, some m =>
    match node.decEq n m with
    | isTrue h => isTrue (by rw [h])
    | isFalse h => isFalse (fun e => h (by cases e; rfl))
end

instance [DecidableEq V] : DecidableEq (node V) := node.decEq

/-- The square of `Point.distance`: `(p.x-x)^2 + (p.y-y)^2`. -/
def Point.distanceSq (p : Point V) (x y : ℚ) : ℚ :=
  (p.x - x) ^ 2 + (p.y - y) ^ 2

/-- The test `p.distance(x, y) <= radius` of `queryRadius`. The source takes
the square root of `distanceSq`; over exact numbers `sqrt d <= r` holds iff
`0 <= r` and `d <= r^2` (see `distanceLe_iff_sqrt`). -/
def Point.distanceLe (p : Point V) (x y radius : ℚ) : Bool :=
  decide (0 ≤ radius ∧ p.distanceSq x y ≤ radius ^ 2)

namespace node

/-- Field `x1`. -/
def x1 : node V → ℚ
  | mk a _ _ _ _ _ _ _ _ => a

/-- Field `y1`. -/
def y1 : node V → ℚ
  | mk _ a _ _ _ _ _ _ _ => a

/-- Field `x2`. -/
def x2 : node V → ℚ
  | mk _ _ a _ _ _ _ _ _ => a

/-- Field `y2`. -/
def y2 : node V → ℚ
  | mk _ _ _ a _ _ _ _ _ => a

/-- The rectangle of a node. -/
def rect (n : node V) : ℚ × ℚ × ℚ × ℚ :=
  (n.x1, n.y1, n.x2, n.y2)

/-- Field `points`. -/
def points : node V → List (Point V)
  | mk _ _ _ _ ps _ _ _ _ => ps

/-- Field `subNodes`, read at index `i`. -/
def subNodes : node V → Fin 4 → Option (node V)
  | mk _ _ _ _ _ s0 s1 s2 s3, i =>
    match i with
    | 0 => s0
    | 1 => s1
    | 2 => s2
    | 3 => s3

/-- Assignment `n.points = ps`. -/
def setPoints : node V → List (Point V) → node V
  | mk a b c d _ s0 s1 s2 s3, ps => mk a b c d ps s0 s1 s2 s3

/-- Assignment `n.subNodes[i] = c`. -/
def setSubNode : node V → Fin 4 → Option (node V) → node V
  | mk a b c d ps s0 s1 s2 s3, i, s =>
    match i with
    | 0 => mk a b c d ps s s1 s2 s3
    | 1 => mk a b c d ps s0 s s2 s3
    | 2 => mk a b c d ps s0 s1 s s3
    | 3 => mk a b c d ps s0 s1 s2 s

/-- The literal `&node[V]{x1: .., y1: .., x2: .., y2: ..}`: no points, four nil
children. -/
def fresh (a b c d : ℚ) : node V :=
  mk a b c d [] none none none none

/-- The method `isLeaf`: `n.subNodes[0] == nil`. -/
def isLeaf (n : node V) : Bool :=
  (n.subNodes 0).isNone

/-- The method `pickSubNode`. -/
def pickSubNode (n : node V) (p : Point V) : Fin 4 :=
  if p.x ≤ (n.x1 + n.x2) / 2 then
    if p.y < (n.y1 + n.y2) / 2 then 0 else 1
  else
    if p.y < (n.y1 + n.y2) / 2 then 2 else 3

/-- The statement `n.subNodes[n.pickSubNode(*p)].insert(p)` shared by `insert`
and `split`, with the recursive call to `insert` passed as `ins`. -/
def descend (ins : node V → Point V → Except Fault (node V)) (n : node V)
    (p : Point V) : Except Fault (node V) :=
  match n.subNodes (n.pickSubNode p) with
  | none => .error .nilDeref
  | some c =>
    match ins c p with
    | .error e => .error e
    | .ok c1 => .ok (n.setSubNode (n.pickSubNode p) (some c1))

/-- The loop `for _, p := range n.points { n.subNodes[..].insert(p) }` of
`split`, over the points `ps`. -/
def distribute (ins : node V → Point V → Except Fault (node V)) :
    List (Point V) → node V → Except Fault (node V)
  | [], n => .ok n
  | p :: ps, n =>
    match n.descend ins p with
    | .error e => .error e
    | .ok n1 => distribute ins ps n1

/-- The four children that `split` creates, in the order of the source. -/
def withChildren (n : node V) : node V :=
  let xMid := (n.x1 + n.x2) / 2
  let yMid := (n.y1 + n.y2) / 2
  mk n.x1 n.y1 n.x2 n.y2 n.points
    (some (fresh n.x1 n.y1 xMid yMid))
    (some (fresh xMid n.y1 n.x2 yMid))
    (some (fresh n.x1 yMid xMid n.y2))
    (some (fresh xMid yMid n.x2 n.y2))

/-- The body of `split`, with the recursive call to `insert` passed as
`ins`. -/
def splitWith (ins : node V → Point V → Except Fault (node V)) (n : node V) :
    Except Fault (node V) :=
  match distribute ins n.points n.withChildren with
  | .error e => .error e
  | .ok n1 => .ok (n1.setPoints [])

/-- The method `insert`, with capacity `cap` and a bound `fuel` on the depth
of its call stack. -/
def insert (cap : Nat) : Nat → node V → Point V → Except Fault (node V)
  | 0, _, _ => .error .outOfFuel
  | fuel + 1, n, p =>
    if !n.isLeaf then
      n.descend (insert cap fuel) p
    else
      let n1 := n.setPoints (n.points ++ [p])
      if n1.points.length > cap then
        splitWith (insert cap fuel) n1
      else
        .ok n1

/-- The method `split`. -/
def split (cap fuel : Nat) (n : node V) : Except Fault (node V) :=
  splitWith (insert cap fuel) n

/-- The method `intersectsCircle`. -/
def intersectsCircle (n : node V) (x y radius : ℚ) : Bool :=
  if x + radius < n.x1 || x - radius > n.x2 || y + radius < n.y1 ||
      y - radius > n.y2 then
    false
  else
    true

mutual
/-- The method `queryRadius`; the accumulator `*points` is passed in and
returned. The loop `for _, subNode := range n.subNodes` calls the method on
each of the four child pointers in turn. -/
def queryRadius : node V → ℚ → ℚ → ℚ → List (Point V) →
    Except Fault (List (Point V))
  | mk a b c d ps s0 s1 s2 s3, x, y, radius, acc =>
    if !(mk a b c d ps s0 s1 s2 s3).intersectsCircle x y radius then
      .ok acc
    else
      let acc0 := acc ++ ps.filter (fun p => p.distanceLe x y radius)
      if !(mk a b c d ps s0 s1 s2 s3).isLeaf then
        (((queryRadiusPtr s0 x y radius acc0).bind (queryRadiusPtr s1 x y radius)).bind
          (queryRadiusPtr s2 x y radius)).bind (queryRadiusPtr s3 x y radius)
      else
        .ok acc0
/-- The call `subNode.queryRadius(..)` on a child pointer: a nil pointer is
dereferenced by the first statement of the method. -/
def queryRadiusPtr : Option (node V) → ℚ → ℚ → ℚ → List (Point V) →
    Except Fault (List (Point V))
  | none, _, _, _, _ => .error .nilDeref
  | some c, x, y, radius, acc => c.queryRadius x y radius acc
end

/-- The points reachable from a node: its own point list followed by those of
its children. -/
def collect : node V → List (Point V)
  | mk _ _ _ _ ps s0 s1 s2 s3 =>
    ps ++ (match s0 with | none => [] | some c => c.collect)
      ++ (match s1 with | none => [] | some c => c.collect)
      ++ (match s2 with | none => [] | some c => c.collect)
      ++ (match s3 with | none => [] | some c => c.collect)

/-- The points held below a node: those of its children, without its own
point list. -/
def kids : node V → List (Point V)
  | mk _ _ _ _ _ s0 s1 s2 s3 =>
    (match s0 with | none => [] | some c => c.collect)
      ++ (match s1 with | none => [] | some c => c.collect)
      ++ (match s2 with | none => [] | some c => c.collect)
      ++ (match s3 with | none => [] | some c => c.collect)

/-- The shape of the nodes the code builds: a leaf has four nil children and
at most `cap` points, an internal node has four children of that shape and no
points of its own. -/
inductive Shaped (cap : Nat) : node V → Prop where
  | leaf (a b c d : ℚ) (ps : List (Point V)) : ps.length ≤ cap →
      Shaped cap (mk a b c d ps none none none none)
  | inner (a b c d : ℚ) (c0 c1 c2 c3 : node V) :
      Shaped cap c0 → Shaped cap c1 → Shaped cap c2 → Shaped cap c3 →
      Shaped cap (mk a b c d [] (some c0) (some c1) (some c2) (some c3))

/-- A node in the middle of `split`: four children of the right shape, its own
points not yet cleared. -/
def Inner4 (cap : Nat) (n : node V) : Prop :=
  ∃ a b c d ps c0 c1 c2 c3, n = mk a b c d ps (some c0) (some c1) (some c2) (some c3) ∧
    Shaped cap c0 ∧ Shaped cap c1 ∧ Shaped cap c2 ∧ Shaped cap c3

/-- What the proofs need of the recursive call: on a node of the right shape
a returning call keeps the shape and adds exactly the inserted point. -/
def Good (cap : Nat) (ins : node V → Point V → Except Fault (node V)) : Prop :=
  ∀ c p c1, Shaped cap c → ins c p = .ok c1 →
    Shaped cap c1 ∧ List.Perm c1.collect (p :: c.collect)

/-- The loop `for _, p := range ps { n.insert(p) }`. -/
def insertList (cap fuel : Nat) : List (Point V) → node V →
    Except Fault (node V)
  | [], n => .ok n
  | p :: ps, n =>
    match insert cap fuel n p with
    | .error e => .error e
    | .ok n1 => insertList cap fuel ps n1

end node

/-- The struct `QuadTree[V]`: the embedded root node and the flat list. -/
structure QuadTree (V : Type) where
  node : quadtree.node V
  allPoints : List (Point V)
deriving DecidableEq

/-- The constructor `NewQuadTree`: the zero value. -/
def NewQuadTree : QuadTree V :=
  ⟨node.fresh 0 0 0 0, []⟩

namespace QuadTree

/-- The method `contains`. -/
def contains (q : QuadTree V) (point : Point V) : Bool :=
  decide (point.x ≥ q.node.x1) && decide (point.x ≤ q.node.x2) &&
    decide (point.y ≥ q.node.y1) && decide (point.y ≤ q.node.y2)

/-- The method `grow`: four consecutive conditional updates of the root
rectangle, each reading the current value of its own side. -/
def grow (q : QuadTree V) (point : Point V) : QuadTree V :=
  match q.node with
  | node.mk a b c d ps s0 s1 s2 s3 =>
    let a1 := if point.x < a then a - (a - point.x) * 2 else a
    let c1 := if point.x > c then c + (point.x - c) * 2 else c
    let b1 := if point.y < b then b - (b - point.y) * 2 else b
    let d1 := if point.y > d then d + (point.y - d) * 2 else d
    ⟨node.mk a1 b1 c1 d1 ps s0 s1 s2 s3, q.allPoints⟩

/-- The method `clearSubNodes`. -/
def clearSubNodes (q : QuadTree V) : QuadTree V :=
  ⟨node.mk q.node.x1 q.node.y1 q.node.x2 q.node.y2 [] none none none none,
    q.allPoints⟩

/-- The method `resort`. -/
def resort (cap fuel : Nat) (q : QuadTree V) : Except Fault (QuadTree V) :=
  match node.insertList cap fuel q.allPoints q.clearSubNodes.node with
  | .error e => .error e
  | .ok n => .ok ⟨n, q.allPoints⟩

/-- The method `Insert`. -/
def Insert (cap fuel : Nat) (q : QuadTree V) (p : Point V) :
    Except Fault (QuadTree V) :=
  match (if !q.contains p then (q.grow p).resort cap fuel else .ok q) with
  | .error e => .error e
  | .ok q1 =>
    match q1.node.insert cap fuel p with
    | .error e => .error e
    | .ok n => .ok ⟨n, q1.allPoints ++ [p]⟩

/-- The method `QueryRadius`. -/
def QueryRadius (q : QuadTree V) (x y radius : ℚ) :
    Except Fault (List (Point V)) :=
  q.node.queryRadius x y radius []

/-- A sequence of `Insert` calls, in order. -/
def InsertAll (cap fuel : Nat) : QuadTree V → List (Point V) →
    Except Fault (QuadTree V)
  | q, [] => .ok q
  | q, p :: ps =>
    match q.Insert cap fuel p with
    | .error e => .error e
    | .ok q1 => InsertAll cap fuel q1 ps

end QuadTree

/-- The relation `Run cap q0 ps q`: the calls `Insert(p)` for the points `p` of
`ps`, in order and each with enough fuel to return, lead from `q0` to `q`. -/
inductive Run (cap : Nat) : QuadTree V → List (Point V) → QuadTree V → Prop where
  | nil (q : QuadTree V) : Run cap q [] q
  | snoc {q0 q q1 : QuadTree V} {ps : List (Point V)} (fuel : Nat) (p : Point V) :
      Run cap q0 ps q → q.Insert cap fuel p = .ok q1 → Run cap q0 (ps ++ [p]) q1

/-- The states of a tree from `NewQuadTree` after finitely many `Insert` calls
that all returned. -/
def Reachable (cap : Nat) (q : QuadTree V) : Prop :=
  ∃ ps, Run cap NewQuadTree ps q

/-- The tree that inserting `ps` into a new tree gives (the new tree itself if
the run does not return within `fuel`). -/
def QuadTree.build (cap fuel : Nat) (ps : List (Point V)) : QuadTree V :=
  match QuadTree.InsertAll cap fuel NewQuadTree ps with
  | .ok q => q
  | .error _ => NewQuadTree

/-- The constructor `NewPoint`. -/
def NewPoint (x y : ℚ) (value : V) : Point V :=
  ⟨x, y, value⟩

/-- Eleven points, one more than `maxObjects`: `(8,8)` fixes the root rectangle
to `(0,0)-(16,16)`, `(1,9)` lies in its top-left quadrant, the other nine in
its bottom-left quadrant. -/
def elevenPoints : List (Point Nat) :=
  [NewPoint 8 8 0, NewPoint 1 9 1, NewPoint 1 1 2, NewPoint 2 1 3, NewPoint 3 1 4,
    NewPoint 4 1 5, NewPoint 5 1 6, NewPoint 6 1 7, NewPoint 7 1 8, NewPoint 1 2 9,
    NewPoint 2 2 10]

/-- The points of `l` all lie in the top-left quadrant of the rectangle
`(a, b)-(c, d)`, the quadrant for which `pickSubNode` answers 1. -/
def node.Stuck (a b c d : ℚ) (l : List (Point V)) : Prop :=
  a ≤ c ∧ b ≤ d ∧ ∀ q ∈ l, q.x ≤ (a + c) / 2 ∧ (b + d) / 2 ≤ q.y

/-- Ten points with pairwise different coordinates: `(8,8)` fixes the root
rectangle to `(0,0)-(16,16)`, the other nine lie in its top-left quadrant. -/
def tenTopLeft : List (Point Nat) :=
  [NewPoint 8 8 0, NewPoint 1 9 1, NewPoint 2 9 2, NewPoint 3 9 3, NewPoint 4 9 4,
    NewPoint 5 9 5, NewPoint 6 9 6, NewPoint 7 9 7, NewPoint 1 10 8, NewPoint 2 10 9]

/-- An unsplit tree: the root is a leaf that holds the flat list itself. -/
def QuadTree.LeafOn (q : QuadTree V) : Prop :=
  ∃ a b c d, q.node = node.mk a b c d q.allPoints none none none none

/-- The invariant of the tree: the root has the shape `node.Shaped` and holds,
as a multiset, the flat list. -/
def QuadTree.Inv (cap : Nat) (q : QuadTree V) : Prop :=
  node.Shaped cap q.node ∧ List.Perm q.node.collect q.allPoints

/-- The brute-force scan: the flat list filtered by distance. -/
def bruteForce (q : QuadTree V) (x y radius : ℚ) : List (Point V) :=
  q.allPoints.filter (fun p => p.distanceLe x y radius)


/-- The test of `QuadTree.contains` applied to the rectangle of a node. -/
def node.encloses (n : node V) (point : Point V) : Bool :=
  decide (point.x ≥ n.x1) && decide (point.x ≤ n.x2) &&
    decide (point.y ≥ n.y1) && decide (point.y ≤ n.y2)

/-- The rectangle of the root is ordered and contains every point of the flat
list. -/
def QuadTree.Encl (q : QuadTree V) : Prop :=
  q.node.x1 ≤ q.node.x2 ∧ q.node.y1 ≤ q.node.y2 ∧
    ∀ p ∈ q.allPoints, q.contains p = true

mutual
/-- All nodes of a tree: the node itself and the nodes below its four child
pointers. -/
def node.nodes : node V → List (node V)
  | .mk a b c d ps s0 s1 s2 s3 =>
    .mk a b c d ps s0 s1 s2 s3 ::
      (node.nodesPtr s0 ++ node.nodesPtr s1 ++ node.nodesPtr s2 ++ node.nodesPtr s3)
/-- The nodes below a child pointer; none below a nil pointer. -/
def node.nodesPtr : Option (node V) → List (node V)
  | none => []
  | some c => c.nodes
end

/-- The root of the tree is what `resort` builds: the insertion of the flat
list, in order, into the empty node with the rectangle of the root, for every
bound on the call depth from `fuel0` on. -/
def QuadTree.Rebuilt (cap : Nat) (q : QuadTree V) : Prop :=
  ∃ fuel0, ∀ fuel, fuel0 ≤ fuel →
    node.insertList cap fuel q.allPoints
      (node.fresh q.node.x1 q.node.y1 q.node.x2 q.node.y2) = .ok q.node

/-- The routing of the points of a tree: below every node with four children,
the points held under child `i` are points for which `pickSubNode` of that
node answers `i`. -/
inductive node.Routed : node V → Prop where
  | leaf (a b c d : ℚ) (ps : List (Point V)) :
      node.Routed (node.mk a b c d ps none none none none)
  | inner (a b c d : ℚ) (ps : List (Point V)) (c0 c1 c2 c3 : node V) :
      node.Routed c0 → node.Routed c1 → node.Routed c2 → node.Routed c3 →
      (∀ p ∈ c0.collect, (node.fresh a b c d : node V).pickSubNode p = 0) →
      (∀ p ∈ c1.collect, (node.fresh a b c d : node V).pickSubNode p = 1) →
      (∀ p ∈ c2.collect, (node.fresh a b c d : node V).pickSubNode p = 2) →
      (∀ p ∈ c3.collect, (node.fresh a b c d : node V).pickSubNode p = 3) →
      node.Routed (node.mk a b c d ps (some c0) (some c1) (some c2) (some c3))

/-- A node with four children of the right shape and the right routing, its
own points arbitrary. -/
def node.Inner4R (cap : Nat) (n : node V) : Prop :=
  ∃ a b c d ps c0 c1 c2 c3,
    n = node.mk a b c d ps (some c0) (some c1) (some c2) (some c3) ∧
    (node.Shaped cap c0 ∧ node.Shaped cap c1 ∧ node.Shaped cap c2 ∧ node.Shaped cap c3) ∧
    (node.Routed c0 ∧ node.Routed c1 ∧ node.Routed c2 ∧ node.Routed c3) ∧
    (∀ p ∈ c0.collect, (node.fresh a b c d : node V).pickSubNode p = 0) ∧
    (∀ p ∈ c1.collect, (node.fresh a b c d : node V).pickSubNode p = 1) ∧
    (∀ p ∈ c2.collect, (node.fresh a b c d : node V).pickSubNode p = 2) ∧
    (∀ p ∈ c3.collect, (node.fresh a b c d : node V).pickSubNode p = 3)

/-- What the routing proofs need of the recursive call: a returning call on a
node of the right shape keeps the routing. -/
def node.GoodR (cap : Nat) (ins : node V → Point V → Except Fault (node V)) : Prop :=
  ∀ c p c1, node.Shaped cap c → node.Routed c → ins c p = .ok c1 → node.Routed c1

/-- The points held under `n.subNodes[i]`; none under a nil pointer. -/
def node.under (n : node V) (i : Fin 4) : List (Point V) :=
  match n.subNodes i with
  | none => []
  | some c => c.collect

/-- The four points of `TestQuadTree_Insert_CorrectSubNodes`, in the order of
the test. -/
def fourQuadrants : List (Point Nat) :=
  [NewPoint 1 1 1, NewPoint (-1) 1 2, NewPoint (-1) (-1) 3, NewPoint 1 (-1) 4]

/-! ### The variant `quadtree/quadtree.go`

The second package of the repository: points carry no value (`Point Unit`),
`node` and its methods are those of the generic package, and `Insert` grows the
root rectangle without calling `resort`. -/

namespace variant

/-- The struct `Quadtree` of the variant: the embedded root node and the flat
list. -/
structure Quadtree where
  node : quadtree.node Unit
  allPoints : List (Point Unit)
deriving DecidableEq

/-- The constructor `NewQuadTree` of the variant: the zero value. -/
def NewQuadTree : Quadtree :=
  ⟨node.fresh 0 0 0 0, []⟩

/-- The constructor `NewPoint` of the variant. -/
def NewPoint (x y : ℚ) : Point Unit :=
  ⟨x, y, ()⟩

namespace Quadtree

/-- The method `contains` of the variant. -/
def contains (q : Quadtree) (point : Point Unit) : Bool :=
  decide (point.x ≥ q.node.x1) && decide (point.x ≤ q.node.x2) &&
    decide (point.y ≥ q.node.y1) && decide (point.y ≤ q.node.y2)

/-- The method `grow` of the variant. -/
def grow (q : Quadtree) (point : Point Unit) : Quadtree :=
  match q.node with
  | node.mk a b c d ps s0 s1 s2 s3 =>
    let a1 := if point.x < a then a - (a - point.x) * 2 else a
    let c1 := if point.x > c then c + (point.x - c) * 2 else c
    let b1 := if point.y < b then b - (b - point.y) * 2 else b
    let d1 := if point.y > d then d + (point.y - d) * 2 else d
    ⟨node.mk a1 b1 c1 d1 ps s0 s1 s2 s3, q.allPoints⟩

/-- The method `Insert` of the variant: append, grow if the point lies
outside, insert; no rebuild. -/
def Insert (cap fuel : Nat) (q : Quadtree) (p : Point Unit) : Except Fault Quadtree :=
  let q1 : Quadtree := ⟨q.node, q.allPoints ++ [p]⟩
  let q2 := if !q1.contains p then q1.grow p else q1
  match q2.node.insert cap fuel p with
  | .error e => .error e
  | .ok n => .ok ⟨n, q2.allPoints⟩

/-- A sequence of `Insert` calls of the variant, in order. -/
def InsertAll (cap fuel : Nat) : Quadtree → List (Point Unit) → Except Fault Quadtree
  | q, [] => .ok q
  | q, p :: ps =>
    match q.Insert cap fuel p with
    | .error e => .error e
    | .ok q1 => InsertAll cap fuel q1 ps

/-- The tree that inserting `ps` into a new tree of the variant gives (the new
tree itself if the run does not return within `fuel`). -/
def build (cap fuel : Nat) (ps : List (Point Unit)) : Quadtree :=
  match InsertAll cap fuel NewQuadTree ps with
  | .ok q => q
  | .error _ => NewQuadTree

end Quadtree

/-- Twelve points: the coordinates of `elevenPoints`, then the far point
`(-100, -100)`, which lies outside the root rectangle `(0,0)-(16,16)`. -/
def twelvePoints : List (Point Unit) :=
  [NewPoint 8 8, NewPoint 1 9, NewPoint 1 1, NewPoint 2 1, NewPoint 3 1, NewPoint 4 1,
    NewPoint 5 1, NewPoint 6 1, NewPoint 7 1, NewPoint 1 2, NewPoint 2 2,
    NewPoint (-100) (-100)]

end variant

/-! ### `float64` arithmetic

The definitions so far read coordinates as exact numbers. For the query of
unsplit trees, whose exactness depends on rounding, the operations of the
program are embedded a second time over `float64` (namespace `f64`), with
IEEE 754 binary64 arithmetic in round-to-nearest, ties-to-even mode: every
operation computes the exact rational result and rounds it, products and sums
are not fused. The two zeros are identified (no operation of the program tells
them apart). -/

/-- A `float64` value: a finite number, an infinity (`neg` its sign bit), or
NaN. -/
inductive F64 where
  | fin (q : ℚ)
  | inf (neg : Bool)
  | nan
deriving DecidableEq

namespace F64

/-- The loop of `log2`: halve `n` until it is below 2, counting the steps. -/
def log2Aux : Nat → Nat → Nat → Nat
  | 0, _, acc => acc
  | f + 1, n, acc => if n < 2 then acc else log2Aux f (n / 2) (acc + 1)

/-- The integer `⌊log2 n⌋` for positive `n`. -/
def log2 (n : Nat) : Nat :=
  log2Aux n n 0

/-- The integer `⌊log2 (num / den)⌋` for positive `num` and `den`. -/
def ilog2 (num den : Nat) : Int :=
  let k : Int := (log2 num : Int) - (log2 den : Int)
  if k ≥ 0 then
    if 2 ^ k.toNat * den ≤ num then k else k - 1
  else
    if den ≤ num * 2 ^ (-k).toNat then k else k - 1

/-- The quotient `N / D` rounded to the nearest integer, ties to even. -/
def roundHalfEven (N D : Nat) : Nat :=
  if 2 * (N % D) < D then N / D
  else if D < 2 * (N % D) then N / D + 1
  else if (N / D) % 2 = 0 then N / D
  else N / D + 1

/-- The rational number `n * 2 ^ s`. -/
def scale (n : Nat) (s : Int) : ℚ :=
  if s ≥ 0 then ((n * 2 ^ s.toNat : Nat) : ℚ) else ((n : Nat) : ℚ) / ((2 ^ (-s).toNat : Nat) : ℚ)

/-- The number `q` rounded to the nearest multiple of `2 ^ s`, ties to even. -/
def roundAt (s : Int) (q : ℚ) : ℚ :=
  let m := scale (if s ≥ 0 then roundHalfEven q.num.natAbs (q.den * 2 ^ s.toNat)
    else roundHalfEven (q.num.natAbs * 2 ^ (-s).toNat) q.den) s
  if q < 0 then -m else m

/-- Rounding to 53 significant bits, the exponent unbounded. -/
def round53 (q : ℚ) : ℚ :=
  if q = 0 then 0 else roundAt (ilog2 q.num.natAbs q.den - 52) q

/-- Rounding of an exact result to `float64`: 53 significant bits for exponents
from `-1022` on, multiples of `2 ^ (-1074)` below, infinity from `2 ^ 1024`
on. -/
def round64 (q : ℚ) : F64 :=
  if q = 0 then fin 0
  else
    let m := roundAt (max (ilog2 q.num.natAbs q.den) (-1022) - 52) q
    if m ≥ 2 ^ 1024 ∨ m ≤ -(2 ^ 1024) then inf (decide (q < 0)) else fin m

/-- Unary minus. -/
def neg : F64 → F64
  | fin a => fin (-a)
  | inf s => inf (!s)
  | nan => nan

/-- The operator `+`. -/
def add : F64 → F64 → F64
  | fin a, fin b => round64 (a + b)
  | fin _, inf s => inf s
  | inf s, fin _ => inf s
  | inf s, inf t => if s = t then inf s else nan
  | nan, _ => nan
  | _, nan => nan

/-- The operator `-`. -/
def sub (x y : F64) : F64 :=
  add x (neg y)

/-- The operator `*`. -/
def mul : F64 → F64 → F64
  | fin a, fin b => round64 (a * b)
  | fin a, inf s => if a = 0 then nan else inf (xor s (decide (a < 0)))
  | inf s, fin a => if a = 0 then nan else inf (xor s (decide (a < 0)))
  | inf s, inf t => inf (xor s t)
  | nan, _ => nan
  | _, nan => nan

/-- The expression `x / 2`, the only division of the program. -/
def half : F64 → F64
  | fin a => round64 (a / 2)
  | inf s => inf s
  | nan => nan

/-- The operator `<`. -/
def lt : F64 → F64 → Bool
  | fin a, fin b => decide (a < b)
  | fin _, inf s => !s
  | inf s, fin _ => s
  | inf s, inf t => s && !t
  | nan, _ => false
  | _, nan => false

/-- The operator `<=`. -/
def le : F64 → F64 → Bool
  | fin a, fin b => decide (a ≤ b)
  | fin _, inf s => !s
  | inf s, fin _ => s
  | inf s, inf t => s || !t
  | nan, _ => false
  | _, nan => false

/-- The operator `>`. -/
def gt (x y : F64) : Bool :=
  lt y x

/-- The operator `>=`. -/
def ge (x y : F64) : Bool :=
  le y x

/-- The call `math.Pow(x, 2)`: the library squares the 53-bit fraction of `x`,
rounds it, and scales the result by the doubled exponent with `Ldexp`, which
rounds once more when the result is subnormal or overflows. -/
def pow2 : F64 → F64
  | fin a => round64 (round53 (a * a))
  | inf _ => inf false
  | nan => nan

/-- The integer square root, bit by bit from bit `k - 1` down. -/
def isqrtAux : Nat → Nat → Nat → Nat
  | 0, _, r => r
  | k + 1, n, r => isqrtAux k n (if (r + 2 ^ k) * (r + 2 ^ k) ≤ n then r + 2 ^ k else r)

/-- The integer `⌊√n⌋`. -/
def isqrt (n : Nat) : Nat :=
  isqrtAux (log2 n / 2 + 1) n 0

/-- The square root of a positive number rounded to 53 significant bits, ties
to even (the root of a `float64` is never subnormal and never overflows). -/
def sqrtRound (a : ℚ) : ℚ :=
  let s : Int := Int.fdiv (ilog2 a.num.natAbs a.den) 2 - 52
  let N := if s ≥ 0 then a.num.natAbs else a.num.natAbs * 4 ^ (-s).toNat
  let D := if s ≥ 0 then a.den * 4 ^ s.toNat else a.den
  let n := isqrt (N / D)
  let c := (4 * n * n + 4 * n + 1) * D
  scale (if 4 * N < c then n else if c < 4 * N then n + 1
    else if n % 2 = 0 then n else n + 1) s

/-- The call `math.Sqrt(x)`, correctly rounded. -/
def sqrt : F64 → F64
  | fin a => if a < 0 then nan else if a = 0 then fin 0 else fin (sqrtRound a)
  | inf s => if s then nan else inf false
  | nan => nan

end F64

/-! ### The program over `float64` -/

namespace f64

/-- The struct `Point[V]`, its coordinates `float64` values. -/
structure Point (V : Type) where
  x : F64
  y : F64
  Value : V
deriving DecidableEq

/-- The constructor `NewPoint`. -/
def NewPoint (x y : F64) (value : V) : Point V :=
  ⟨x, y, value⟩

/-- The struct `node[V]`: rectangle, held points and the four child pointers. -/
inductive node (V : Type) where
  | mk (x1 y1 x2 y2 : F64) (points : List (Point V))
      (sub0 sub1 sub2 sub3 : Option (node V)) : node V

/-- The method `distance`: `math.Sqrt(math.Pow(p.x-x, 2) + math.Pow(p.y-y, 2))`. -/
def Point.distance (p : Point V) (x y : F64) : F64 :=
  F64.sqrt (F64.add (F64.pow2 (F64.sub p.x x)) (F64.pow2 (F64.sub p.y y)))

/-- The test of the claims, Euclidean distance at most `radius`, on the exact
values of finite coordinates: `0 <= radius` and the squared distance at most
`radius ^ 2`. -/
def Point.euclidLe (p : Point V) (x y radius : F64) : Bool :=
  match p.x, p.y, x, y, radius with
  | .fin px, .fin py, .fin a, .fin b, .fin r =>
    decide (0 ≤ r ∧ (px - a) ^ 2 + (py - b) ^ 2 ≤ r ^ 2)
  | _, _, _, _, _ => false

namespace node

/-- Field `x1`. -/
def x1 : node V → F64
  | mk a _ _ _ _ _ _ _ _ => a

/-- Field `y1`. -/
def y1 : node V → F64
  | mk _ a _ _ _ _ _ _ _ => a

/-- Field `x2`. -/
def x2 : node V → F64
  | mk _ _ a _ _ _ _ _ _ => a

/-- Field `y2`. -/
def y2 : node V → F64
  | mk _ _ _ a _ _ _ _ _ => a

/-- Field `points`. -/
def points : node V → List (Point V)
  | mk _ _ _ _ ps _ _ _ _ => ps

/-- Field `subNodes`, read at index `i`. -/
def subNodes : node V → Fin 4 → Option (node V)
  | mk _ _ _ _ _ s0 s1 s2 s3, i =>
    match i with
    | 0 => s0
    | 1 => s1
    | 2 => s2
    | 3 => s3

/-- Assignment `n.points = ps`. -/
def setPoints : node V → List (Point V) → node V
  | mk a b c d _ s0 s1 s2 s3, ps => mk a b c d ps s0 s1 s2 s3

/-- Assignment `n.subNodes[i] = c`. -/
def setSubNode : node V → Fin 4 → Option (node V) → node V
  | mk a b c d ps s0 s1 s2 s3, i, s =>
    match i with
    | 0 => mk a b c d ps s s1 s2 s3
    | 1 => mk a b c d ps s0 s s2 s3
    | 2 => mk a b c d ps s0 s1 s s3
    | 3 => mk a b c d ps s0 s1 s2 s

/-- The literal `&node[V]{x1: .., y1: .., x2: .., y2: ..}`: no points, four nil
children. -/
def fresh (a b c d : F64) : node V :=
  mk a b c d [] none none none none

/-- The method `isLeaf`: `n.subNodes[0] == nil`. -/
def isLeaf (n : node V) : Bool :=
  (n.subNodes 0).isNone

/-- The method `pickSubNode`. -/
def pickSubNode (n : node V) (p : Point V) : Fin 4 :=
  if F64.le p.x (F64.half (F64.add n.x1 n.x2)) then
    if F64.lt p.y (F64.half (F64.add n.y1 n.y2)) then 0 else 1
  else
    if F64.lt p.y (F64.half (F64.add n.y1 n.y2)) then 2 else 3

/-- The statement `n.subNodes[n.pickSubNode(*p)].insert(p)` shared by `insert`
and `split`, with the recursive call to `insert` passed as `ins`. -/
def descend (ins : node V → Point V → Except Fault (node V)) (n : node V)
    (p : Point V) : Except Fault (node V) :=
  match n.subNodes (n.pickSubNode p) with
  | none => .error .nilDeref
  | some c =>
    match ins c p with
    | .error e => .error e
    | .ok c1 => .ok (n.setSubNode (n.pickSubNode p) (some c1))

/-- The loop `for _, p := range n.points { n.subNodes[..].insert(p) }` of
`split`, over the points `ps`. -/
def distribute (ins : node V → Point V → Except Fault (node V)) :
    List (Point V) → node V → Except Fault (node V)
  | [], n => .ok n
  | p :: ps, n =>
    match n.descend ins p with
    | .error e => .error e
    | .ok n1 => distribute ins ps n1

/-- The four children that `split` creates, in the order of the source. -/
def withChildren (n : node V) : node V :=
  let xMid := F64.half (F64.add n.x1 n.x2)
  let yMid := F64.half (F64.add n.y1 n.y2)
  mk n.x1 n.y1 n.x2 n.y2 n.points
    (some (fresh n.x1 n.y1 xMid yMid))
    (some (fresh xMid n.y1 n.x2 yMid))
    (some (fresh n.x1 yMid xMid n.y2))
    (some (fresh xMid yMid n.x2 n.y2))

/-- The body of `split`, with the recursive call to `insert` passed as
`ins`. -/
def splitWith (ins : node V → Point V → Except Fault (node V)) (n : node V) :
    Except Fault (node V) :=
  match distribute ins n.points n.withChildren with
  | .error e => .error e
  | .ok n1 => .ok (n1.setPoints [])

/-- The method `insert`, with capacity `cap` and a bound `fuel` on the depth
of its call stack. -/
def insert (cap : Nat) : Nat → node V → Point V → Except Fault (node V)
  | 0, _, _ => .error .outOfFuel
  | fuel + 1, n, p =>
    if !n.isLeaf then
      n.descend (insert cap fuel) p
    else
      let n1 := n.setPoints (n.points ++ [p])
      if n1.points.length > cap then
        splitWith (insert cap fuel) n1
      else
        .ok n1

/-- The method `split`. -/
def split (cap fuel : Nat) (n : node V) : Except Fault (node V) :=
  splitWith (insert cap fuel) n

/-- The method `intersectsCircle`. -/
def intersectsCircle (n : node V) (x y radius : F64) : Bool :=
  if F64.lt (F64.add x radius) n.x1 || F64.gt (F64.sub x radius) n.x2 ||
      F64.lt (F64.add y radius) n.y1 || F64.gt (F64.sub y radius) n.y2 then
    false
  else
    true

mutual
/-- The method `queryRadius`; the accumulator `*points` is passed in and
returned. The loop `for _, subNode := range n.subNodes` calls the method on
each of the four child pointers in turn. -/
def queryRadius : node V → F64 → F64 → F64 → List (Point V) →
    Except Fault (List (Point V))
  | mk a b c d ps s0 s1 s2 s3, x, y, radius, acc =>
    if !(mk a b c d ps s0 s1 s2 s3).intersectsCircle x y radius then
      .ok acc
    else
      let acc0 := acc ++ ps.filter (fun p => F64.le (p.distance x y) radius)
      if !(mk a b c d ps s0 s1 s2 s3).isLeaf then
        (((queryRadiusPtr s0 x y radius acc0).bind (queryRadiusPtr s1 x y radius)).bind
          (queryRadiusPtr s2 x y radius)).bind (queryRadiusPtr s3 x y radius)
      else
        .ok acc0
/-- The call `subNode.queryRadius(..)` on a child pointer: a nil pointer is
dereferenced by the first statement of the method. -/
def queryRadiusPtr : Option (node V) → F64 → F64 → F64 → List (Point V) →
    Except Fault (List (Point V))
  | none, _, _, _, _ => .error .nilDeref
  | some c, x, y, radius, acc => c.queryRadius x y radius acc
end

/-- The loop `for _, p := range ps { n.insert(p) }`. -/
def insertList (cap fuel : Nat) : List (Point V) → node V →
    Except Fault (node V)
  | [], n => .ok n
  | p :: ps, n =>
    match insert cap fuel n p with
    | .error e => .error e
    | .ok n1 => insertList cap fuel ps n1

end node

/-- The struct `QuadTree[V]`: the embedded root node and the flat list. -/
structure QuadTree (V : Type) where
  node : f64.node V
  allPoints : List (Point V)

/-- The constructor `NewQuadTree`: the zero value. -/
def NewQuadTree : QuadTree V :=
  ⟨node.fresh (.fin 0) (.fin 0) (.fin 0) (.fin 0), []⟩

namespace QuadTree

/-- The method `contains`. -/
def contains (q : QuadTree V) (point : Point V) : Bool :=
  F64.ge point.x q.node.x1 && F64.le point.x q.node.x2 &&
    F64.ge point.y q.node.y1 && F64.le point.y q.node.y2

/-- The method `grow`: four consecutive conditional updates of the root
rectangle, each reading the current value of its own side. -/
def grow (q : QuadTree V) (point : Point V) : QuadTree V :=
  match q.node with
  | node.mk a b c d ps s0 s1 s2 s3 =>
    let a1 := if F64.lt point.x a then F64.sub a (F64.mul (F64.sub a point.x) (.fin 2)) else a
    let c1 := if F64.gt point.x c then F64.add c (F64.mul (F64.sub point.x c) (.fin 2)) else c
    let b1 := if F64.lt point.y b then F64.sub b (F64.mul (F64.sub b point.y) (.fin 2)) else b
    let d1 := if F64.gt point.y d then F64.add d (F64.mul (F64.sub point.y d) (.fin 2)) else d
    ⟨node.mk a1 b1 c1 d1 ps s0 s1 s2 s3, q.allPoints⟩

/-- The method `clearSubNodes`. -/
def clearSubNodes (q : QuadTree V) : QuadTree V :=
  ⟨node.mk q.node.x1 q.node.y1 q.node.x2 q.node.y2 [] none none none none,
    q.allPoints⟩

/-- The method `resort`. -/
def resort (cap fuel : Nat) (q : QuadTree V) : Except Fault (QuadTree V) :=
  match node.insertList cap fuel q.allPoints q.clearSubNodes.node with
  | .error e => .error e
  | .ok n => .ok ⟨n, q.allPoints⟩

/-- The method `Insert`. -/
def Insert (cap fuel : Nat) (q : QuadTree V) (p : Point V) :
    Except Fault (QuadTree V) :=
  match (if !q.contains p then (q.grow p).resort cap fuel else .ok q) with
  | .error e => .error e
  | .ok q1 =>
    match q1.node.insert cap fuel p with
    | .error e => .error e
    | .ok n => .ok ⟨n, q1.allPoints ++ [p]⟩

/-- The method `QueryRadius`. -/
def QueryRadius (q : QuadTree V) (x y radius : F64) :
    Except Fault (List (Point V)) :=
  q.node.queryRadius x y radius []

/-- A sequence of `Insert` calls, in order. -/
def InsertAll (cap fuel : Nat) : QuadTree V → List (Point V) →
    Except Fault (QuadTree V)
  | q, [] => .ok q
  | q, p :: ps =>
    match q.Insert cap fuel p with
    | .error e => .error e
    | .ok q1 => InsertAll cap fuel q1 ps

/-- The tree that inserting `ps` into a new tree gives (the new tree itself if
the run does not return within `fuel`). -/
def build (cap fuel : Nat) (ps : List (Point V)) : QuadTree V :=
  match InsertAll cap fuel NewQuadTree ps with
  | .ok q => q
  | .error _ => NewQuadTree

/-- An unsplit tree: the root is a leaf that holds the flat list itself. -/
def LeafOn (q : QuadTree V) : Prop :=
  ∃ a b c d, q.node = node.mk a b c d q.allPoints none none none none

end QuadTree

/-- The relation `Run cap q0 ps q`: the calls `Insert(p)` for the points `p` of
`ps`, in order and each with enough fuel to return, lead from `q0` to `q`. -/
inductive Run (cap : Nat) : QuadTree V → List (Point V) → QuadTree V → Prop where
  | nil (q : QuadTree V) : Run cap q [] q
  | snoc {q0 q q1 : QuadTree V} {ps : List (Point V)} (fuel : Nat) (p : Point V) :
      Run cap q0 ps q → q.Insert cap fuel p = .ok q1 → Run cap q0 (ps ++ [p]) q1

/-- A point whose squared distance from the origin overflows `float64`. -/
def farPoint : Point Nat :=
  NewPoint (.fin (F64.scale 1 700)) (.fin 0) 0

/-- A point so close to the query `(-5 * 2^-601, 0)` that the square of the
difference of the `x` coordinates underflows to zero. -/
def tinyPoint : Point Nat :=
  NewPoint (.fin (-(F64.scale 1 (-600)))) (.fin 0) 0

/-- Three points with coordinates that are `float64` values. -/
def threePoints : List (Point Nat) :=
  [NewPoint (.fin 1) (.fin 1) 0, NewPoint (.fin (-3)) (.fin (1 / 2)) 1,
    NewPoint (.fin (5 / 4)) (.fin 2) 2]

end f64

/-! ## Field lemmas -/

namespace node

@[simp] theorem rect_setPoints (n : node V) (ps : List (Point V)) :
    (n.setPoints ps).rect = n.rect := by
  cases n; rfl

@[simp] theorem rect_setSubNode (n : node V) (i : Fin 4) (s : Option (node V)) :
    (n.setSubNode i s).rect = n.rect := by
  cases n; fin_cases i <;> rfl

@[simp] theorem rect_withChildren (n : node V) : n.withChildren.rect = n.rect := by
  cases n; rfl

@[simp] theorem points_setPoints (n : node V) (ps : List (Point V)) :
    (n.setPoints ps).points = ps := by
  cases n; rfl

@[simp] theorem points_setSubNode (n : node V) (i : Fin 4) (s : Option (node V)) :
    (n.setSubNode i s).points = n.points := by
  cases n; fin_cases i <;> rfl

@[simp] theorem points_withChildren (n : node V) :
    n.withChildren.points = n.points := by
  cases n; rfl

theorem pickSubNode_congr {n m : node V} (h : n.rect = m.rect) (p : Point V) :
    n.pickSubNode p = m.pickSubNode p := by
  simp only [rect, Prod.mk.injEq] at h
  obtain ⟨h1, h2, h3, h4⟩ := h
  simp only [pickSubNode, h1, h2, h3, h4]

theorem descend_ok {ins : node V → Point V → Except Fault (node V)} {n n1 : node V}
    {p : Point V} (h : n.descend ins p = .ok n1) :
    ∃ c c1, n.subNodes (n.pickSubNode p) = some c ∧ ins c p = .ok c1 ∧
      n1 = n.setSubNode (n.pickSubNode p) (some c1) := by
  unfold descend at h
  split at h
  · cases h
  · rename_i c hc
    split at h
    · cases h
    · rename_i c1 hc1
      exact ⟨c, c1, hc, hc1, (Except.ok.inj h).symm⟩

theorem distribute_ok_cons {ins : node V → Point V → Except Fault (node V)}
    {p : Point V} {ps : List (Point V)} {n n2 : node V}
    (h : distribute ins (p :: ps) n = .ok n2) :
    ∃ n1, n.descend ins p = .ok n1 ∧ distribute ins ps n1 = .ok n2 := by
  unfold distribute at h
  split at h
  · cases h
  · rename_i n1 h1
    exact ⟨n1, h1, h⟩

theorem splitWith_ok {ins : node V → Point V → Except Fault (node V)} {n n2 : node V}
    (h : splitWith ins n = .ok n2) :
    ∃ n1, distribute ins n.points n.withChildren = .ok n1 ∧ n2 = n1.setPoints [] := by
  unfold splitWith at h
  split at h
  · cases h
  · rename_i n1 h1
    exact ⟨n1, h1, (Except.ok.inj h).symm⟩

theorem rect_descend {ins : node V → Point V → Except Fault (node V)} {n n1 : node V}
    {p : Point V} (h : n.descend ins p = .ok n1) : n1.rect = n.rect := by
  obtain ⟨c, c1, -, -, rfl⟩ := descend_ok h
  simp

theorem points_descend {ins : node V → Point V → Except Fault (node V)} {n n1 : node V}
    {p : Point V} (h : n.descend ins p = .ok n1) : n1.points = n.points := by
  obtain ⟨c, c1, -, -, rfl⟩ := descend_ok h
  simp

theorem rect_distribute {ins : node V → Point V → Except Fault (node V)}
    (ps : List (Point V)) : ∀ {n n1 : node V},
    distribute ins ps n = .ok n1 → n1.rect = n.rect := by
  induction ps with
  | nil => intro n n1 h; cases h; rfl
  | cons p ps ih =>
    intro n n1 h
    obtain ⟨m, hm, h2⟩ := distribute_ok_cons h
    rw [ih h2, rect_descend hm]

theorem points_distribute {ins : node V → Point V → Except Fault (node V)}
    (ps : List (Point V)) : ∀ {n n1 : node V},
    distribute ins ps n = .ok n1 → n1.points = n.points := by
  induction ps with
  | nil => intro n n1 h; cases h; rfl
  | cons p ps ih =>
    intro n n1 h
    obtain ⟨m, hm, h2⟩ := distribute_ok_cons h
    rw [ih h2, points_descend hm]

theorem rect_splitWith {ins : node V → Point V → Except Fault (node V)} {n n1 : node V}
    (h : splitWith ins n = .ok n1) : n1.rect = n.rect := by
  obtain ⟨m, hm, rfl⟩ := splitWith_ok h
  rw [rect_setPoints, rect_distribute _ hm, rect_withChildren]

theorem insert_succ (cap fuel : Nat) (n : node V) (p : Point V) :
    insert cap (fuel + 1) n p =
      if !n.isLeaf then n.descend (insert cap fuel) p
      else if (n.setPoints (n.points ++ [p])).points.length > cap then
        splitWith (insert cap fuel) (n.setPoints (n.points ++ [p]))
      else .ok (n.setPoints (n.points ++ [p])) := by
  rw [insert]

theorem rect_insert {cap fuel : Nat} {n n1 : node V} {p : Point V}
    (h : insert cap fuel n p = .ok n1) : n1.rect = n.rect := by
  cases fuel with
  | zero => cases h
  | succ fuel =>
    rw [insert_succ] at h
    split at h
    · exact rect_descend h
    · split at h
      · rw [rect_splitWith h, rect_setPoints]
      · cases h; simp

theorem insertList_ok_cons {cap fuel : Nat} {p : Point V} {ps : List (Point V)}
    {n n2 : node V} (h : insertList cap fuel (p :: ps) n = .ok n2) :
    ∃ n1, insert cap fuel n p = .ok n1 ∧ insertList cap fuel ps n1 = .ok n2 := by
  unfold insertList at h
  split at h
  · cases h
  · rename_i n1 h1
    exact ⟨n1, h1, h⟩

theorem rect_insertList {cap fuel : Nat} (ps : List (Point V)) : ∀ {n n1 : node V},
    insertList cap fuel ps n = .ok n1 → n1.rect = n.rect := by
  induction ps with
  | nil => intro n n1 h; cases h; rfl
  | cons p ps ih =>
    intro n n1 h
    obtain ⟨m, hm, h2⟩ := insertList_ok_cons h
    rw [ih h2, rect_insert hm]

/-! ## Shape and contents are kept by `insert` -/

theorem collect_eq (n : node V) : n.collect = n.points ++ n.kids := by
  cases n with
  | mk a b c d ps s0 s1 s2 s3 =>
    cases s0 <;> cases s1 <;> cases s2 <;> cases s3 <;> simp [collect, kids, points]

theorem perm_slot {p : Point V} {l0 l1 l2 l3 m0 m1 m2 m3 : List (Point V)}
    (h : (List.Perm m0 (p :: l0) ∧ m1 = l1 ∧ m2 = l2 ∧ m3 = l3) ∨
      (m0 = l0 ∧ List.Perm m1 (p :: l1) ∧ m2 = l2 ∧ m3 = l3) ∨
      (m0 = l0 ∧ m1 = l1 ∧ List.Perm m2 (p :: l2) ∧ m3 = l3) ∨
      (m0 = l0 ∧ m1 = l1 ∧ m2 = l2 ∧ List.Perm m3 (p :: l3))) :
    List.Perm (m0 ++ m1 ++ m2 ++ m3) (p :: (l0 ++ l1 ++ l2 ++ l3)) := by
  rcases h with ⟨h, rfl, rfl, rfl⟩ | ⟨rfl, h, rfl, rfl⟩ | ⟨rfl, rfl, h, rfl⟩ |
    ⟨rfl, rfl, rfl, h⟩
  · exact ((h.append_right _).append_right _).append_right _
  · refine (((h.append_left m0).append_right _).append_right _).trans ?_
    simp only [List.append_assoc]
    exact List.perm_middle
  · refine ((h.append_left (m0 ++ m1)).append_right _).trans ?_
    simp only [List.append_assoc]
    refine (List.Perm.append_left m0 List.perm_middle).trans ?_
    exact List.perm_middle
  · refine (h.append_left (m0 ++ m1 ++ m2)).trans ?_
    simp only [List.append_assoc]
    refine (List.Perm.append_left m0 (List.Perm.append_left m1 List.perm_middle)).trans ?_
    refine (List.Perm.append_left m0 List.perm_middle).trans ?_
    exact List.perm_middle

theorem descend_inner {cap : Nat} {ins : node V → Point V → Except Fault (node V)}
    (hg : Good cap ins) {n n1 : node V} {p : Point V} (hn : Inner4 cap n)
    (h : n.descend ins p = .ok n1) :
    Inner4 cap n1 ∧ List.Perm n1.kids (p :: n.kids) := by
  obtain ⟨a, b, c, d, ps, c0, c1, c2, c3, rfl, h0, h1, h2, h3⟩ := hn
  obtain ⟨k, k1, hk, hins, rfl⟩ := descend_ok h
  generalize (mk a b c d ps (some c0) (some c1) (some c2) (some c3)).pickSubNode p = i
    at hk ⊢
  fin_cases i
  · cases hk
    obtain ⟨hs, hp⟩ := hg _ _ _ h0 hins
    exact ⟨⟨a, b, c, d, ps, k1, c1, c2, c3, rfl, hs, h1, h2, h3⟩,
      perm_slot (Or.inl ⟨hp, rfl, rfl, rfl⟩)⟩
  · cases hk
    obtain ⟨hs, hp⟩ := hg _ _ _ h1 hins
    exact ⟨⟨a, b, c, d, ps, c0, k1, c2, c3, rfl, h0, hs, h2, h3⟩,
      perm_slot (Or.inr (Or.inl ⟨rfl, hp, rfl, rfl⟩))⟩
  · cases hk
    obtain ⟨hs, hp⟩ := hg _ _ _ h2 hins
    exact ⟨⟨a, b, c, d, ps, c0, c1, k1, c3, rfl, h0, h1, hs, h3⟩,
      perm_slot (Or.inr (Or.inr (Or.inl ⟨rfl, rfl, hp, rfl⟩)))⟩
  · cases hk
    obtain ⟨hs, hp⟩ := hg _ _ _ h3 hins
    exact ⟨⟨a, b, c, d, ps, c0, c1, c2, k1, rfl, h0, h1, h2, hs⟩,
      perm_slot (Or.inr (Or.inr (Or.inr ⟨rfl, rfl, rfl, hp⟩)))⟩

theorem distribute_inner {cap : Nat} {ins : node V → Point V → Except Fault (node V)}
    (hg : Good cap ins) (qs : List (Point V)) : ∀ {n n1 : node V}, Inner4 cap n →
    distribute ins qs n = .ok n1 →
    Inner4 cap n1 ∧ List.Perm n1.kids (qs ++ n.kids) := by
  induction qs with
  | nil => intro n n1 hn h; cases h; exact ⟨hn, List.Perm.refl _⟩
  | cons q qs ih =>
    intro n n1 hn h
    obtain ⟨m, hm, h2⟩ := distribute_ok_cons h
    obtain ⟨hi, hp⟩ := descend_inner hg hn hm
    obtain ⟨hi2, hp2⟩ := ih hi h2
    refine ⟨hi2, hp2.trans ?_⟩
    refine (List.Perm.append_left qs hp).trans ?_
    exact List.perm_middle

theorem inner4_withChildren (cap : Nat) (n : node V) :
    Inner4 cap n.withChildren ∧ n.withChildren.kids = [] :=
  ⟨⟨_, _, _, _, _, _, _, _, _, rfl, Shaped.leaf _ _ _ _ _ (Nat.zero_le _),
    Shaped.leaf _ _ _ _ _ (Nat.zero_le _), Shaped.leaf _ _ _ _ _ (Nat.zero_le _),
    Shaped.leaf _ _ _ _ _ (Nat.zero_le _)⟩, rfl⟩

theorem shaped_of_inner4 {cap : Nat} {n : node V} (h : Inner4 cap n) :
    Shaped cap (n.setPoints []) ∧ (n.setPoints []).collect = n.kids := by
  obtain ⟨a, b, c, d, ps, c0, c1, c2, c3, rfl, h0, h1, h2, h3⟩ := h
  exact ⟨Shaped.inner a b c d c0 c1 c2 c3 h0 h1 h2 h3, by simp [setPoints, collect, kids]⟩

theorem splitWith_good {cap : Nat} {ins : node V → Point V → Except Fault (node V)}
    (hg : Good cap ins) {n n1 : node V} (h : splitWith ins n = .ok n1) :
    Shaped cap n1 ∧ List.Perm n1.collect n.points := by
  obtain ⟨m, hm, rfl⟩ := splitWith_ok h
  obtain ⟨hi, hk⟩ := inner4_withChildren cap n
  obtain ⟨hi2, hp⟩ := distribute_inner hg _ hi hm
  obtain ⟨hs, hc⟩ := shaped_of_inner4 hi2
  refine ⟨hs, ?_⟩
  rw [hc]
  simpa [hk] using hp

theorem setPoints_points (n : node V) : n.setPoints n.points = n := by
  cases n; rfl

theorem insert_good (cap : Nat) : ∀ fuel : Nat, Good cap (insert (V := V) cap fuel) := by
  intro fuel
  induction fuel with
  | zero => intro n p r _ h; cases h
  | succ fuel ih =>
    intro n p r hn h
    rw [insert_succ] at h
    cases hn with
    | leaf a b c d ps hlen =>
      simp only [isLeaf, subNodes, Option.isNone_none, Bool.not_true, Bool.false_eq_true,
        if_false, setPoints, points] at h
      split at h
      · obtain ⟨hs, hp⟩ := splitWith_good ih h
        refine ⟨hs, hp.trans ?_⟩
        simp only [points, collect, List.append_nil]
        exact List.perm_append_singleton _ _
      · rename_i hle
        cases h
        refine ⟨Shaped.leaf _ _ _ _ _ (Nat.le_of_not_lt hle), ?_⟩
        simp only [collect, List.append_nil]
        exact List.perm_append_singleton _ _
    | inner a b c d c0 c1 c2 c3 h0 h1 h2 h3 =>
      simp only [isLeaf, subNodes, Option.isNone_some, Bool.not_false, if_true] at h
      have hi : Inner4 cap (mk a b c d [] (some c0) (some c1) (some c2) (some c3)) :=
        ⟨_, _, _, _, _, _, _, _, _, rfl, h0, h1, h2, h3⟩
      obtain ⟨hi2, hp⟩ := descend_inner ih hi h
      have hpts : r.points = [] := points_descend h
      obtain ⟨hs, hcol⟩ := shaped_of_inner4 hi2
      rw [← hpts, setPoints_points] at hs hcol
      refine ⟨hs, ?_⟩
      rw [hcol, collect_eq]
      simpa [points] using hp

theorem shaped_insert {cap fuel : Nat} {n n1 : node V} {p : Point V}
    (hn : Shaped cap n) (h : insert cap fuel n p = .ok n1) : Shaped cap n1 :=
  (insert_good cap fuel n p n1 hn h).1

theorem collect_insert {cap fuel : Nat} {n n1 : node V} {p : Point V}
    (hn : Shaped cap n) (h : insert cap fuel n p = .ok n1) :
    List.Perm n1.collect (p :: n.collect) :=
  (insert_good cap fuel n p n1 hn h).2

theorem insertList_good {cap fuel : Nat} (ps : List (Point V)) : ∀ {n n1 : node V},
    Shaped cap n → insertList cap fuel ps n = .ok n1 →
    Shaped cap n1 ∧ List.Perm n1.collect (n.collect ++ ps) := by
  induction ps with
  | nil => intro n n1 hn h; cases h; exact ⟨hn, by simp⟩
  | cons p ps ih =>
    intro n n1 hn h
    obtain ⟨m, hm, h2⟩ := insertList_ok_cons h
    obtain ⟨hs, hp⟩ := ih (shaped_insert hn hm) h2
    refine ⟨hs, hp.trans ?_⟩
    refine ((collect_insert hn hm).append_right ps).trans ?_
    simpa using (@List.perm_middle _ p n.collect ps).symm

end node

/-! ## The tree and its flat list -/

namespace QuadTree

theorem resort_ok {cap fuel : Nat} {q q1 : QuadTree V} (h : q.resort cap fuel = .ok q1) :
    ∃ n, node.insertList cap fuel q.allPoints q.clearSubNodes.node = .ok n ∧
      q1 = ⟨n, q.allPoints⟩ := by
  unfold resort at h
  split at h
  · cases h
  · rename_i n hn
    exact ⟨n, hn, (Except.ok.inj h).symm⟩

theorem Insert_ok {cap fuel : Nat} {q q2 : QuadTree V} {p : Point V}
    (h : q.Insert cap fuel p = .ok q2) :
    ∃ q1 n, (if !q.contains p then (q.grow p).resort cap fuel else .ok q) = .ok q1 ∧
      q1.node.insert cap fuel p = .ok n ∧ q2 = ⟨n, q1.allPoints ++ [p]⟩ := by
  unfold Insert at h
  split at h
  · cases h
  · rename_i q1 hq1
    split at h
    · cases h
    · rename_i n hn
      exact ⟨q1, n, hq1, hn, (Except.ok.inj h).symm⟩

theorem allPoints_grow (q : QuadTree V) (p : Point V) :
    (q.grow p).allPoints = q.allPoints := by
  obtain ⟨⟨a, b, c, d, ps, s0, s1, s2, s3⟩, l⟩ := q
  rfl

theorem rect_grow (q : QuadTree V) (p : Point V) :
    (q.grow p).node.rect =
      (if p.x < q.node.x1 then q.node.x1 - (q.node.x1 - p.x) * 2 else q.node.x1,
       if p.y < q.node.y1 then q.node.y1 - (q.node.y1 - p.y) * 2 else q.node.y1,
       if p.x > q.node.x2 then q.node.x2 + (p.x - q.node.x2) * 2 else q.node.x2,
       if p.y > q.node.y2 then q.node.y2 + (p.y - q.node.y2) * 2 else q.node.y2) := by
  obtain ⟨⟨a, b, c, d, ps, s0, s1, s2, s3⟩, l⟩ := q
  rfl

theorem rect_clearSubNodes (q : QuadTree V) : q.clearSubNodes.node.rect = q.node.rect :=
  rfl

/-- What the first statement of `Insert` (grow and rebuild when the point lies
outside) leaves behind. -/
theorem prepare_ok {cap fuel : Nat} {q q1 : QuadTree V} {p : Point V}
    (h : (if !q.contains p then (q.grow p).resort cap fuel else .ok q) = .ok q1) :
    q1.allPoints = q.allPoints ∧
      (q1.node.rect = q.node.rect ∨ q1.node.rect = (q.grow p).node.rect) ∧
      (Inv cap q → Inv cap q1) := by
  split at h
  · obtain ⟨n, hn, rfl⟩ := resort_ok h
    refine ⟨allPoints_grow q p, Or.inr ?_, fun _ => ?_⟩
    · exact (node.rect_insertList _ hn).trans (rect_clearSubNodes _)
    · have hs : node.Shaped cap (q.grow p).clearSubNodes.node :=
        node.Shaped.leaf _ _ _ _ _ (Nat.zero_le _)
      obtain ⟨h1, h2⟩ := node.insertList_good _ hs hn
      exact ⟨h1, by simpa [clearSubNodes, node.collect] using h2⟩
  · cases h
    exact ⟨rfl, Or.inl rfl, id⟩

theorem allPoints_Insert {cap fuel : Nat} {q q2 : QuadTree V} {p : Point V}
    (h : q.Insert cap fuel p = .ok q2) : q2.allPoints = q.allPoints ++ [p] := by
  obtain ⟨q1, n, h1, -, rfl⟩ := Insert_ok h
  rw [(prepare_ok h1).1]

theorem inv_Insert {cap fuel : Nat} {q q2 : QuadTree V} {p : Point V}
    (hq : Inv cap q) (h : q.Insert cap fuel p = .ok q2) : Inv cap q2 := by
  obtain ⟨q1, n, h1, hn, rfl⟩ := Insert_ok h
  obtain ⟨hs, hp⟩ := (prepare_ok h1).2.2 hq
  obtain ⟨hs2, hp2⟩ := node.insert_good cap fuel _ _ _ hs hn
  refine ⟨hs2, hp2.trans ?_⟩
  exact ((List.Perm.cons p hp).trans (List.perm_append_singleton p q1.allPoints).symm)

theorem inv_new (cap : Nat) : Inv cap (NewQuadTree : QuadTree V) :=
  ⟨node.Shaped.leaf _ _ _ _ _ (Nat.zero_le _), List.Perm.refl _⟩

theorem inv_run {cap : Nat} {q0 q : QuadTree V} {ps : List (Point V)}
    (h : Run cap q0 ps q) : Inv cap q0 → Inv cap q := by
  induction h with
  | nil => exact id
  | snoc fuel p _ hstep ih => exact fun h0 => inv_Insert (ih h0) hstep

theorem inv_reachable {cap : Nat} {q : QuadTree V} (h : Reachable cap q) : Inv cap q := by
  obtain ⟨ps, hr⟩ := h
  exact inv_run hr (inv_new cap)

theorem allPoints_run {cap : Nat} {q0 q : QuadTree V} {ps : List (Point V)}
    (h : Run cap q0 ps q) : q.allPoints = q0.allPoints ++ ps := by
  induction h with
  | nil => simp
  | snoc fuel p _ hstep ih => rw [allPoints_Insert hstep, ih, List.append_assoc]

theorem run_cons {cap fuel : Nat} {q0 q1 q : QuadTree V} {p : Point V}
    {ps : List (Point V)} (h1 : q0.Insert cap fuel p = .ok q1) (h : Run cap q1 ps q) :
    Run cap q0 (p :: ps) q := by
  induction h with
  | nil => exact @Run.snoc _ cap q0 q0 q1 [] fuel p (Run.nil q0) h1
  | snoc fuel2 p2 _ hstep ih => exact @Run.snoc _ cap q0 _ _ (p :: _) fuel2 p2 ih hstep

theorem run_of_InsertAll {cap fuel : Nat} (ps : List (Point V)) :
    ∀ {q0 q : QuadTree V}, InsertAll cap fuel q0 ps = .ok q → Run cap q0 ps q := by
  induction ps with
  | nil => intro q0 q h; cases h; exact Run.nil _
  | cons p ps ih =>
    intro q0 q h
    unfold InsertAll at h
    split at h
    · cases h
    · rename_i q1 h1
      exact run_cons h1 (ih h)

theorem build_ok {cap fuel : Nat} {ps : List (Point V)}
    (h : (InsertAll cap fuel NewQuadTree ps).isOk = true) :
    InsertAll cap fuel NewQuadTree ps = .ok (build cap fuel ps) := by
  unfold build
  split
  · rename_i q hq; exact hq
  · rename_i e he; rw [he] at h; cases h

theorem reachable_build {cap fuel : Nat} {ps : List (Point V)}
    (h : (InsertAll cap fuel NewQuadTree ps).isOk = true) :
    Reachable cap (build cap fuel ps) :=
  ⟨ps, run_of_InsertAll ps (build_ok h)⟩

theorem rect_Insert {cap fuel : Nat} {q q2 : QuadTree V} {p : Point V}
    (h : q.Insert cap fuel p = .ok q2) :
    q2.node.x1 ≤ q.node.x1 ∧ q2.node.y1 ≤ q.node.y1 ∧ q.node.x2 ≤ q2.node.x2 ∧
      q.node.y2 ≤ q2.node.y2 := by
  obtain ⟨q1, n, h1, hn, rfl⟩ := Insert_ok h
  have hr : n.rect = q1.node.rect := node.rect_insert hn
  rcases (prepare_ok h1).2.1 with h2 | h2
  · rw [h2] at hr
    simp only [node.rect, Prod.mk.injEq] at hr
    obtain ⟨e1, e2, e3, e4⟩ := hr
    simp only [e1, e2, e3, e4, le_refl, and_self]
  · rw [h2, rect_grow] at hr
    simp only [node.rect, Prod.mk.injEq] at hr
    obtain ⟨e1, e2, e3, e4⟩ := hr
    simp only [e1, e2, e3, e4]
    refine ⟨?_, ?_, ?_, ?_⟩ <;> split <;> linarith

theorem rect_run {cap : Nat} {q0 q : QuadTree V} {ps : List (Point V)}
    (h : Run cap q0 ps q) :
    q.node.x1 ≤ q0.node.x1 ∧ q.node.y1 ≤ q0.node.y1 ∧ q0.node.x2 ≤ q.node.x2 ∧
      q0.node.y2 ≤ q.node.y2 := by
  induction h with
  | nil => simp
  | snoc fuel p _ hstep ih =>
    obtain ⟨a1, a2, a3, a4⟩ := ih
    obtain ⟨b1, b2, b3, b4⟩ := rect_Insert hstep
    exact ⟨b1.trans a1, b2.trans a2, a3.trans b3, a4.trans b4⟩

end QuadTree

/-! ## More fuel does not change a result -/

namespace node

theorem split_eq (cap fuel : Nat) (n : node V) :
    split cap fuel n = splitWith (insert cap fuel) n :=
  rfl

theorem descend_mono {ins ins2 : node V → Point V → Except Fault (node V)}
    (hm : ∀ c p r, ins c p = .ok r → ins2 c p = .ok r) {n r : node V} {p : Point V}
    (h : n.descend ins p = .ok r) : n.descend ins2 p = .ok r := by
  obtain ⟨c, c1, hc, hins, rfl⟩ := descend_ok h
  simp only [descend, hc, hm c p c1 hins]

theorem distribute_mono {ins ins2 : node V → Point V → Except Fault (node V)}
    (hm : ∀ c p r, ins c p = .ok r → ins2 c p = .ok r) (ps : List (Point V)) :
    ∀ {n r : node V}, distribute ins ps n = .ok r → distribute ins2 ps n = .ok r := by
  induction ps with
  | nil => intro n r h; exact h
  | cons p ps ih =>
    intro n r h
    obtain ⟨m, hm1, h2⟩ := distribute_ok_cons h
    simp only [distribute, descend_mono hm hm1]
    exact ih h2

theorem insert_fuel_mono (cap : Nat) : ∀ (fuel : Nat) (n : node V) (p : Point V)
    (r : node V), insert cap fuel n p = .ok r → insert cap (fuel + 1) n p = .ok r := by
  intro fuel
  induction fuel with
  | zero => intro n p r h; cases h
  | succ fuel ih =>
    intro n p r h
    rw [insert_succ] at h ⊢
    split at h
    · rename_i hl
      rw [if_pos hl]
      exact descend_mono ih h
    · rename_i hl
      rw [if_neg hl]
      split at h
      · rename_i hlen
        rw [if_pos hlen]
        obtain ⟨m, hm, rfl⟩ := splitWith_ok h
        simp only [splitWith, distribute_mono ih _ hm]
      · rename_i hlen
        rw [if_neg hlen]
        exact h

theorem insertList_fuel_mono {cap fuel : Nat} (ps : List (Point V)) :
    ∀ {n r : node V}, insertList cap fuel ps n = .ok r →
      insertList cap (fuel + 1) ps n = .ok r := by
  induction ps with
  | nil => intro n r h; exact h
  | cons p ps ih =>
    intro n r h
    obtain ⟨m, hm, h2⟩ := insertList_ok_cons h
    simp only [insertList, insert_fuel_mono cap fuel n p m hm]
    exact ih h2

end node

theorem QuadTree.Insert_fuel_mono {cap fuel : Nat} {q q2 : QuadTree V} {p : Point V}
    (h : q.Insert cap fuel p = .ok q2) : q.Insert cap (fuel + 1) p = .ok q2 := by
  obtain ⟨q1, n, h1, hn, rfl⟩ := QuadTree.Insert_ok h
  unfold QuadTree.Insert
  split at h1
  · rename_i hc
    obtain ⟨m, hm, rfl⟩ := QuadTree.resort_ok h1
    simp only [hc, if_true, QuadTree.resort, node.insertList_fuel_mono _ hm,
      node.insert_fuel_mono cap fuel _ p n hn]
  · rename_i hc
    cases h1
    simp only [hc, if_false, Bool.false_eq_true, node.insert_fuel_mono cap fuel _ p n hn]

/-! ## The radius query -/

theorem distanceLe_iff_sqrt (p : Point V) (x y radius : ℚ) :
    p.distanceLe x y radius = true ↔
      Real.sqrt ((((p.x - x) ^ 2 + (p.y - y) ^ 2 : ℚ) : ℝ)) ≤ (radius : ℝ) := by
  rw [Real.sqrt_le_iff]
  simp only [Point.distanceLe, Point.distanceSq, decide_eq_true_eq]
  constructor
  · rintro ⟨h1, h2⟩
    exact ⟨by exact_mod_cast h1, by exact_mod_cast h2⟩
  · rintro ⟨h1, h2⟩
    exact ⟨by exact_mod_cast h1, by exact_mod_cast h2⟩

theorem distanceLe_neg (p : Point V) (x y : ℚ) {radius : ℚ} (h : radius < 0) :
    p.distanceLe x y radius = false := by
  simp only [Point.distanceLe, decide_eq_false_iff_not, not_and]
  intro h0
  exact absurd h (not_lt.mpr h0)

namespace node

theorem queryRadius_mk (a b c d : ℚ) (ps : List (Point V)) (s0 s1 s2 s3 : Option (node V))
    (x y radius : ℚ) (acc : List (Point V)) :
    (mk a b c d ps s0 s1 s2 s3).queryRadius x y radius acc =
      if !(mk a b c d ps s0 s1 s2 s3).intersectsCircle x y radius then .ok acc
      else if !(mk a b c d ps s0 s1 s2 s3).isLeaf then
        (((queryRadiusPtr s0 x y radius
            (acc ++ ps.filter (fun p => p.distanceLe x y radius))).bind
          (queryRadiusPtr s1 x y radius)).bind
          (queryRadiusPtr s2 x y radius)).bind (queryRadiusPtr s3 x y radius)
      else .ok (acc ++ ps.filter (fun p => p.distanceLe x y radius)) := by
  rw [queryRadius]

theorem queryRadiusPtr_some (c : node V) (x y radius : ℚ) (acc : List (Point V)) :
    queryRadiusPtr (some c) x y radius acc = c.queryRadius x y radius acc := by
  rw [queryRadiusPtr]

theorem queryRadius_shaped {cap : Nat} (x y radius : ℚ) {n : node V} (hn : Shaped cap n) :
    ∀ acc : List (Point V), ∃ res, n.queryRadius x y radius acc = .ok (acc ++ res) ∧
      List.Sublist res (n.collect.filter (fun p => p.distanceLe x y radius)) := by
  induction hn with
  | leaf a b c d ps hlen =>
    intro acc
    rw [queryRadius_mk]
    split
    · exact ⟨[], by simp, List.nil_sublist _⟩
    · refine ⟨ps.filter (fun p => p.distanceLe x y radius), ?_, ?_⟩
      · simp [isLeaf, subNodes]
      · simp [collect]
  | inner a b c d c0 c1 c2 c3 _ _ _ _ ih0 ih1 ih2 ih3 =>
    intro acc
    rw [queryRadius_mk]
    split
    · exact ⟨[], by simp, List.nil_sublist _⟩
    · obtain ⟨r0, e0, s0⟩ := ih0 (acc ++ [])
      obtain ⟨r1, e1, s1⟩ := ih1 (acc ++ [] ++ r0)
      obtain ⟨r2, e2, s2⟩ := ih2 (acc ++ [] ++ r0 ++ r1)
      obtain ⟨r3, e3, s3⟩ := ih3 (acc ++ [] ++ r0 ++ r1 ++ r2)
      refine ⟨r0 ++ r1 ++ r2 ++ r3, ?_, ?_⟩
      · simp only [isLeaf, subNodes, Option.isNone_some, Bool.not_false, if_true,
          List.filter_nil, queryRadiusPtr_some, e0, e1, e2, e3, Except.bind]
        simp [List.append_assoc]
      · simp only [collect, List.nil_append, List.filter_append]
        exact ((s0.append s1).append s2).append s3

end node

/-! ## Below the split threshold -/

namespace node

theorem insert_leaf_lt {cap : Nat} (fuel : Nat) (a b c d : ℚ) (ps : List (Point V))
    (p : Point V) (h : ps.length < cap) :
    insert cap (fuel + 1) (mk a b c d ps none none none none) p =
      .ok (mk a b c d (ps ++ [p]) none none none none) := by
  rw [insert_succ]
  simp only [isLeaf, subNodes, Option.isNone_none, Bool.not_true, Bool.false_eq_true,
    if_false, setPoints, points, List.length_append, List.length_singleton]
  rw [if_neg (by omega)]

theorem insert_leaf_full {cap fuel : Nat} {a b c d : ℚ} {ps : List (Point V)}
    {p : Point V} {n1 : node V} (hlen : ps.length = cap)
    (h : insert cap fuel (mk a b c d ps none none none none) p = .ok n1) :
    n1.points = [] ∧ ∀ i, (n1.subNodes i).isSome = true := by
  cases fuel with
  | zero => cases h
  | succ fuel =>
    rw [insert_succ] at h
    simp only [isLeaf, subNodes, Option.isNone_none, Bool.not_true, Bool.false_eq_true,
      if_false, setPoints, points, List.length_append, List.length_singleton] at h
    rw [if_pos (by omega)] at h
    obtain ⟨m, hm, rfl⟩ := splitWith_ok h
    obtain ⟨hi, -⟩ := distribute_inner (insert_good cap fuel) _
      (inner4_withChildren cap _).1 hm
    obtain ⟨a1, b1, c1, d1, qs, k0, k1, k2, k3, rfl, -⟩ := hi
    refine ⟨rfl, fun i => ?_⟩
    fin_cases i <;> rfl

theorem insertList_leaf {cap : Nat} (fuel : Nat) (a b c d : ℚ) (ps : List (Point V)) :
    ∀ M : List (Point V), M.length + ps.length ≤ cap →
      insertList cap (fuel + 1) ps (mk a b c d M none none none none) =
        .ok (mk a b c d (M ++ ps) none none none none) := by
  induction ps with
  | nil => intro M _; simp [insertList]
  | cons p ps ih =>
    intro M h
    simp only [List.length_cons] at h
    rw [insertList, insert_leaf_lt fuel a b c d M p (by omega)]
    simp only
    rw [ih (M ++ [p]) (by simp only [List.length_append, List.length_singleton]; omega)]
    simp

end node

namespace QuadTree

theorem Insert_zero (cap : Nat) (q : QuadTree V) (p : Point V) :
    q.Insert cap 0 p = .error .outOfFuel := by
  unfold Insert
  split
  · rename_i e he
    split at he
    · unfold resort at he
      split at he
      · rename_i e2 he2
        cases he
        cases hl : (q.grow p).allPoints with
        | nil => rw [hl] at he2; cases he2
        | cons a l => rw [hl] at he2; simp only [node.insertList, node.insert] at he2; cases he2; rfl
      · cases he
    · cases he
  · rfl

theorem Insert_leafOn {cap : Nat} (fuel : Nat) {q : QuadTree V} (p : Point V)
    (hq : LeafOn q) (hlen : q.allPoints.length < cap) :
    ∃ q1, q.Insert cap (fuel + 1) p = .ok q1 ∧ LeafOn q1 := by
  obtain ⟨a, b, c, d, hq⟩ := hq
  obtain ⟨n, l⟩ := q
  simp only at hq hlen
  subst hq
  unfold Insert
  by_cases hc : (QuadTree.mk (node.mk a b c d l none none none none) l).contains p = true
  · simp only [hc, Bool.not_true, Bool.false_eq_true, if_false,
      node.insert_leaf_lt fuel a b c d l p hlen]
    exact ⟨_, rfl, _, _, _, _, rfl⟩
  · simp only [hc, Bool.not_false, if_true, resort, grow, clearSubNodes, node.x1,
      node.y1, node.x2, node.y2]
    rw [node.insertList_leaf fuel _ _ _ _ l [] (by simpa using hlen.le)]
    simp only [List.nil_append, node.insert_leaf_lt fuel _ _ _ _ l p hlen]
    exact ⟨_, rfl, _, _, _, _, rfl⟩

theorem leafOn_new : LeafOn (NewQuadTree : QuadTree V) :=
  ⟨0, 0, 0, 0, rfl⟩

theorem leafOn_run {cap : Nat} {q0 q : QuadTree V} {ps : List (Point V)}
    (h : Run cap q0 ps q) : LeafOn q0 → q0.allPoints.length + ps.length ≤ cap →
    LeafOn q := by
  induction h with
  | nil => exact fun h0 _ => h0
  | snoc fuel p hrun hstep ih =>
    intro h0 hlen
    simp only [List.length_append, List.length_singleton] at hlen
    have hq := ih h0 (by omega)
    have hl := congrArg List.length (allPoints_run hrun)
    rw [List.length_append] at hl
    cases fuel with
    | zero => rw [Insert_zero] at hstep; cases hstep
    | succ fuel =>
      obtain ⟨q2, e, hq2⟩ := @Insert_leafOn _ cap fuel _ p hq (by omega)
      rw [e] at hstep
      cases hstep
      exact hq2

theorem InsertAll_leafOn {cap : Nat} (fuel : Nat) (ps : List (Point V)) :
    ∀ q0 : QuadTree V, LeafOn q0 → q0.allPoints.length + ps.length ≤ cap →
      ∃ q, InsertAll cap (fuel + 1) q0 ps = .ok q := by
  induction ps with
  | nil => intro q0 _ _; exact ⟨q0, rfl⟩
  | cons p ps ih =>
    intro q0 h0 hlen
    simp only [List.length_cons] at hlen
    obtain ⟨q1, e, hq1⟩ := @Insert_leafOn _ cap fuel _ p h0 (by omega)
    have hlen1 : q1.allPoints.length + ps.length ≤ cap := by
      rw [allPoints_Insert e, List.length_append, List.length_singleton]; omega
    obtain ⟨q, hq⟩ := ih q1 hq1 hlen1
    exact ⟨q, by rw [InsertAll, e]; exact hq⟩

end QuadTree

/-! ## Split without end

`split` gives child 1 the rectangle `(xMid, y1)-(x2, yMid)`, `pickSubNode` gives
child 1 the points with `x <= xMid` and `y >= yMid`. More than `cap` points of
the latter kind all go to child 1, lie in the same position relative to the
rectangle of child 1, and make it split in turn, without end. -/

namespace node

theorem stuck_mono {a b c d : ℚ} {l l1 : List (Point V)} (h : Stuck a b c d l)
    (hsub : ∀ q ∈ l1, q ∈ l) : Stuck a b c d l1 :=
  ⟨h.1, h.2.1, fun q hq => h.2.2 q (hsub q hq)⟩

theorem stuck_child {a b c d : ℚ} {l : List (Point V)} (h : Stuck a b c d l) :
    Stuck ((a + c) / 2) b c ((b + d) / 2) l := by
  obtain ⟨h1, h2, h3⟩ := h
  refine ⟨by linarith, by linarith, fun q hq => ?_⟩
  obtain ⟨hx, hy⟩ := h3 q hq
  exact ⟨by linarith, by linarith⟩

theorem pick_stuck {a b c d : ℚ} {l : List (Point V)} (h : Stuck a b c d l)
    (ps : List (Point V)) (s0 s1 s2 s3 : Option (node V)) {q : Point V} (hq : q ∈ l) :
    (mk a b c d ps s0 s1 s2 s3).pickSubNode q = 1 := by
  obtain ⟨hx, hy⟩ := h.2.2 q hq
  simp only [pickSubNode, x1, x2, y1, y2, if_pos hx, if_neg (not_lt.mpr hy)]

theorem distribute_stuck {cap fuel : Nat}
    (ih : ∀ (a b c d : ℚ) (ps : List (Point V)) (p : Point V), ps.length = cap →
      Stuck a b c d (ps ++ [p]) →
      insert cap fuel (mk a b c d ps none none none none) p = .error .outOfFuel)
    (a b c d : ℚ) (X : List (Point V)) (k0 k2 k3 : node V) (a1 b1 c1 d1 : ℚ)
    (qs : List (Point V)) : ∀ M : List (Point V), M.length ≤ cap →
      cap < M.length + qs.length → Stuck a b c d qs → Stuck a1 b1 c1 d1 (M ++ qs) →
      distribute (insert cap fuel) qs
        (mk a b c d X (some k0) (some (mk a1 b1 c1 d1 M none none none none))
          (some k2) (some k3)) = .error .outOfFuel := by
  induction qs with
  | nil => intro M h1 h2 _ _; simp only [List.length_nil] at h2; omega
  | cons q qs ihq =>
    intro M h1 h2 hs hc
    simp only [List.length_cons] at h2
    have hpick := pick_stuck hs X (some k0) (some (mk a1 b1 c1 d1 M none none none none))
      (some k2) (some k3) (List.mem_cons_self q qs)
    rw [distribute, descend, hpick]
    simp only [subNodes]
    by_cases hM : M.length = cap
    · rw [ih a1 b1 c1 d1 M q hM (stuck_mono hc (by
        intro r hr
        simp only [List.mem_append, List.mem_singleton, List.mem_cons] at hr ⊢
        tauto))]
    · cases fuel with
      | zero => rfl
      | succ fuel =>
        rw [insert_leaf_lt fuel a1 b1 c1 d1 M q (by omega)]
        simp only [setSubNode]
        refine ihq (M ++ [q]) ?_ ?_ (stuck_mono hs (fun r hr => List.mem_cons_of_mem _ hr)) ?_
        · simp only [List.length_append, List.length_singleton]; omega
        · simp only [List.length_append, List.length_singleton]; omega
        · simpa using hc

theorem insert_stuck (cap : Nat) : ∀ (fuel : Nat) (a b c d : ℚ) (ps : List (Point V))
    (p : Point V), ps.length = cap → Stuck a b c d (ps ++ [p]) →
    insert cap fuel (mk a b c d ps none none none none) p = .error .outOfFuel := by
  intro fuel
  induction fuel with
  | zero => intro a b c d ps p _ _; rfl
  | succ fuel ih =>
    intro a b c d ps p hlen hs
    rw [insert_succ]
    simp only [isLeaf, subNodes, Option.isNone_none, Bool.not_true, Bool.false_eq_true,
      if_false, setPoints, points, List.length_append, List.length_singleton]
    rw [if_pos (by omega)]
    have hd := distribute_stuck ih a b c d (ps ++ [p]) (fresh a b ((a + c) / 2) ((b + d) / 2))
      (fresh a ((b + d) / 2) ((a + c) / 2) d) (fresh ((a + c) / 2) ((b + d) / 2) c d)
      ((a + c) / 2) b c ((b + d) / 2) (ps ++ [p]) [] (Nat.zero_le _)
      (by simp only [List.length_nil, List.length_append, List.length_singleton]; omega)
      hs (by simpa using stuck_child hs)
    simp only [splitWith, withChildren, points, x1, y1, x2, y2, fresh] at hd ⊢
    rw [hd]

end node

/-! ## Rectangles: the prune test and growth -/

theorem distanceLe_bounds {p : Point V} {x y radius : ℚ}
    (h : p.distanceLe x y radius = true) :
    x - radius ≤ p.x ∧ p.x ≤ x + radius ∧ y - radius ≤ p.y ∧ p.y ≤ y + radius := by
  simp only [Point.distanceLe, Point.distanceSq, decide_eq_true_eq] at h
  obtain ⟨h0, h1⟩ := h
  have hx := abs_le_of_sq_le_sq' (show (p.x - x) ^ 2 ≤ radius ^ 2 by
    nlinarith [sq_nonneg (p.y - y)]) h0
  have hy := abs_le_of_sq_le_sq' (show (p.y - y) ^ 2 ≤ radius ^ 2 by
    nlinarith [sq_nonneg (p.x - x)]) h0
  exact ⟨by linarith [hx.1], by linarith [hx.2], by linarith [hy.1], by linarith [hy.2]⟩

namespace node

theorem intersectsCircle_eq_false_iff (n : node V) (x y radius : ℚ) :
    n.intersectsCircle x y radius = false ↔
      (x + radius < n.x1 ∨ x - radius > n.x2 ∨ y + radius < n.y1 ∨ y - radius > n.y2) := by
  unfold intersectsCircle
  split
  · rename_i h
    simp only [Bool.or_eq_true, decide_eq_true_eq] at h
    simp only [true_iff]
    tauto
  · rename_i h
    simp only [Bool.or_eq_true, decide_eq_true_eq] at h
    simp only [Bool.true_eq_false, false_iff]
    tauto

theorem intersectsCircle_of_near (n : node V) (x y radius : ℚ) (p : Point V)
    (h1 : n.x1 ≤ p.x) (h2 : p.x ≤ n.x2) (h3 : n.y1 ≤ p.y) (h4 : p.y ≤ n.y2)
    (hd : p.distanceLe x y radius = true) : n.intersectsCircle x y radius = true := by
  obtain ⟨b1, b2, b3, b4⟩ := distanceLe_bounds hd
  cases hi : n.intersectsCircle x y radius with
  | true => rfl
  | false =>
    rcases (intersectsCircle_eq_false_iff n x y radius).mp hi with h | h | h | h <;>
      exact absurd h (by linarith)

theorem rect_eq_iff {n m : node V} :
    n.rect = m.rect ↔ n.x1 = m.x1 ∧ n.y1 = m.y1 ∧ n.x2 = m.x2 ∧ n.y2 = m.y2 := by
  simp only [rect, Prod.mk.injEq]

end node

namespace QuadTree

theorem contains_iff (q : QuadTree V) (p : Point V) :
    q.contains p = true ↔
      q.node.x1 ≤ p.x ∧ p.x ≤ q.node.x2 ∧ q.node.y1 ≤ p.y ∧ p.y ≤ q.node.y2 := by
  simp only [contains, Bool.and_eq_true, decide_eq_true_eq, ge_iff_le, and_assoc]

theorem grow_sides (q : QuadTree V) (p : Point V) :
    (q.grow p).node.x1 = (if p.x < q.node.x1 then q.node.x1 - (q.node.x1 - p.x) * 2
        else q.node.x1) ∧
      (q.grow p).node.y1 = (if p.y < q.node.y1 then q.node.y1 - (q.node.y1 - p.y) * 2
        else q.node.y1) ∧
      (q.grow p).node.x2 = (if p.x > q.node.x2 then q.node.x2 + (p.x - q.node.x2) * 2
        else q.node.x2) ∧
      (q.grow p).node.y2 = (if p.y > q.node.y2 then q.node.y2 + (p.y - q.node.y2) * 2
        else q.node.y2) := by
  have h := rect_grow q p
  simp only [node.rect, Prod.mk.injEq] at h
  exact h

theorem grow_encloses (q : QuadTree V) (p : Point V) (hx : q.node.x1 ≤ q.node.x2)
    (hy : q.node.y1 ≤ q.node.y2) :
    (q.grow p).node.x1 ≤ (q.grow p).node.x2 ∧ (q.grow p).node.y1 ≤ (q.grow p).node.y2 ∧
      (q.grow p).contains p = true ∧
      (q.grow p).node.x1 ≤ q.node.x1 ∧ (q.grow p).node.y1 ≤ q.node.y1 ∧
      q.node.x2 ≤ (q.grow p).node.x2 ∧ q.node.y2 ≤ (q.grow p).node.y2 := by
  obtain ⟨e1, e2, e3, e4⟩ := grow_sides q p
  rw [contains_iff, e1, e2, e3, e4]
  refine ⟨?_, ?_, ⟨?_, ?_, ?_, ?_⟩, ?_, ?_, ?_, ?_⟩ <;> split_ifs <;> linarith

/-- The first statement of `Insert`, by cases on `contains`. -/
theorem prepare_cases {cap fuel : Nat} {q q1 : QuadTree V} {p : Point V}
    (h : (if !q.contains p then (q.grow p).resort cap fuel else .ok q) = .ok q1) :
    (q.contains p = true ∧ q1 = q) ∨
      (q.contains p = false ∧ q1.node.rect = (q.grow p).node.rect ∧
        q1.allPoints = q.allPoints ∧
        node.insertList cap fuel q.allPoints
          (node.fresh (q.grow p).node.x1 (q.grow p).node.y1 (q.grow p).node.x2
            (q.grow p).node.y2) = .ok q1.node) := by
  cases hc : q.contains p with
  | true =>
    rw [hc] at h
    simp only [Bool.not_true, Bool.false_eq_true, if_false] at h
    cases h
    exact Or.inl ⟨rfl, rfl⟩
  | false =>
    rw [hc] at h
    simp only [Bool.not_false, if_true] at h
    obtain ⟨n, hn, rfl⟩ := resort_ok h
    refine Or.inr ⟨rfl, ?_, allPoints_grow q p, ?_⟩
    · exact (node.rect_insertList _ hn).trans (rect_clearSubNodes _)
    · rw [allPoints_grow] at hn
      exact hn

theorem encl_Insert {cap fuel : Nat} {q q2 : QuadTree V} {p : Point V}
    (hq : Encl q) (h : q.Insert cap fuel p = .ok q2) : Encl q2 := by
  obtain ⟨q1, n, h1, hn, rfl⟩ := Insert_ok h
  obtain ⟨hx, hy, hall⟩ := hq
  have hr := node.rect_eq_iff.mp (node.rect_insert hn)
  obtain ⟨r1, r2, r3, r4⟩ := hr
  rcases prepare_cases h1 with ⟨hc, rfl⟩ | ⟨-, hrect, hpts, -⟩
  · refine ⟨by simp only [r1, r3]; exact hx, by simp only [r2, r4]; exact hy, ?_⟩
    intro a ha
    simp only [List.mem_append, List.mem_singleton] at ha
    have key : q1.contains a = true := by
      rcases ha with ha | rfl
      · exact hall a ha
      · exact hc
    rw [contains_iff] at key ⊢
    simp only [r1, r2, r3, r4]
    exact key
  · obtain ⟨s1, s2, s3, s4⟩ := node.rect_eq_iff.mp hrect
    obtain ⟨g1, g2, g3, g4, g5, g6, g7⟩ := grow_encloses q p hx hy
    rw [contains_iff] at g3
    refine ⟨by simp only [r1, r3, s1, s3]; exact g1, by simp only [r2, r4, s2, s4]; exact g2, ?_⟩
    intro a ha
    rw [hpts] at ha
    simp only [List.mem_append, List.mem_singleton] at ha
    rw [contains_iff]
    simp only [r1, r2, r3, r4, s1, s2, s3, s4]
    rcases ha with ha | rfl
    · have ka := (contains_iff q a).mp (hall a ha)
      exact ⟨by linarith [ka.1], by linarith [ka.2.1], by linarith [ka.2.2.1],
        by linarith [ka.2.2.2]⟩
    · exact g3

theorem encl_new : Encl (NewQuadTree : QuadTree V) :=
  ⟨le_refl _, le_refl _, fun p hp => by cases hp⟩

theorem encl_run {cap : Nat} {q0 q : QuadTree V} {ps : List (Point V)}
    (h : Run cap q0 ps q) : Encl q0 → Encl q := by
  induction h with
  | nil => exact id
  | snoc fuel p _ hstep ih => exact fun h0 => encl_Insert (ih h0) hstep

end QuadTree

/-! ## Every node of the tree -/

namespace node

theorem nodes_mk (a b c d : ℚ) (ps : List (Point V)) (s0 s1 s2 s3 : Option (node V)) :
    (mk a b c d ps s0 s1 s2 s3).nodes =
      mk a b c d ps s0 s1 s2 s3 :: (nodesPtr s0 ++ nodesPtr s1 ++ nodesPtr s2 ++ nodesPtr s3) := by
  rw [nodes]

theorem nodesPtr_some (c : node V) : nodesPtr (some c) = c.nodes := by
  rw [nodesPtr]

theorem nodesPtr_none : nodesPtr (none : Option (node V)) = [] := by
  rw [nodesPtr]

theorem mem_nodes_self (n : node V) : n ∈ n.nodes := by
  cases n
  rw [nodes_mk]
  exact List.mem_cons_self _ _

theorem shaped_nodes {cap : Nat} {n : node V} (hn : Shaped cap n) :
    ∀ m ∈ n.nodes,
      ((∀ i, m.subNodes i = none) ∧ m.points.length ≤ cap ∧ m.isLeaf = true) ∨
      ((∀ i, (m.subNodes i).isSome = true) ∧ m.points = [] ∧ m.isLeaf = false) := by
  induction hn with
  | leaf a b c d ps hlen =>
    intro m hm
    rw [nodes_mk] at hm
    simp only [nodesPtr_none, List.append_nil, List.mem_singleton] at hm
    subst hm
    exact Or.inl ⟨fun i => by fin_cases i <;> rfl, hlen, rfl⟩
  | inner a b c d c0 c1 c2 c3 _ _ _ _ ih0 ih1 ih2 ih3 =>
    intro m hm
    rw [nodes_mk] at hm
    simp only [nodesPtr_some, List.mem_cons, List.mem_append] at hm
    rcases hm with rfl | ((hm | hm) | hm) | hm
    · exact Or.inr ⟨fun i => by fin_cases i <;> rfl, rfl, rfl⟩
    · exact ih0 m hm
    · exact ih1 m hm
    · exact ih2 m hm
    · exact ih3 m hm

/-! ## Any larger fuel -/

theorem insert_fuel_le {cap fuel fuel2 : Nat} (hle : fuel ≤ fuel2) {n r : node V}
    {p : Point V} (h : insert cap fuel n p = .ok r) : insert cap fuel2 n p = .ok r := by
  induction hle with
  | refl => exact h
  | step _ ih => exact insert_fuel_mono cap _ n p r ih

theorem insertList_fuel_le {cap fuel fuel2 : Nat} (hle : fuel ≤ fuel2) {n r : node V}
    {ps : List (Point V)} (h : insertList cap fuel ps n = .ok r) :
    insertList cap fuel2 ps n = .ok r := by
  induction hle with
  | refl => exact h
  | step _ ih => exact insertList_fuel_mono ps ih

theorem insertList_snoc {cap fuel : Nat} (ps : List (Point V)) (p : Point V) :
    ∀ {n m r : node V}, insertList cap fuel ps n = .ok m → insert cap fuel m p = .ok r →
      insertList cap fuel (ps ++ [p]) n = .ok r := by
  induction ps with
  | nil =>
    intro n m r h1 h2
    cases h1
    simp only [List.nil_append, insertList, h2]
  | cons a ps ih =>
    intro n m r h1 h2
    obtain ⟨k, hk, h3⟩ := insertList_ok_cons h1
    simp only [List.cons_append, insertList, hk]
    exact ih h3 h2

end node

namespace QuadTree

theorem rebuilt_new (cap : Nat) : Rebuilt cap (NewQuadTree : QuadTree V) :=
  ⟨0, fun _ _ => rfl⟩

theorem rebuilt_Insert {cap fuel : Nat} {q q2 : QuadTree V} {p : Point V}
    (hq : Rebuilt cap q) (h : q.Insert cap fuel p = .ok q2) : Rebuilt cap q2 := by
  obtain ⟨q1, n, h1, hn, rfl⟩ := Insert_ok h
  obtain ⟨r1, r2, r3, r4⟩ := node.rect_eq_iff.mp (node.rect_insert hn)
  rcases prepare_cases h1 with ⟨-, rfl⟩ | ⟨-, hrect, hpts, hins⟩
  · obtain ⟨F, hF⟩ := hq
    refine ⟨max F fuel, fun f hf => ?_⟩
    simp only [r1, r2, r3, r4]
    exact node.insertList_snoc _ p (hF f (le_trans (le_max_left _ _) hf))
      (node.insert_fuel_le (le_trans (le_max_right _ _) hf) hn)
  · obtain ⟨s1, s2, s3, s4⟩ := node.rect_eq_iff.mp hrect
    refine ⟨fuel, fun f hf => ?_⟩
    simp only [r1, r2, r3, r4, s1, s2, s3, s4, hpts]
    exact node.insertList_snoc _ p (node.insertList_fuel_le hf hins)
      (node.insert_fuel_le hf hn)

theorem rebuilt_run {cap : Nat} {q0 q : QuadTree V} {ps : List (Point V)}
    (h : Run cap q0 ps q) : Rebuilt cap q0 → Rebuilt cap q := by
  induction h with
  | nil => exact id
  | snoc fuel p _ hstep ih => exact fun h0 => rebuilt_Insert (ih h0) hstep

theorem resort_of_insertList {cap fuel : Nat} {q : QuadTree V}
    (h : node.insertList cap fuel q.allPoints
      (node.fresh q.node.x1 q.node.y1 q.node.x2 q.node.y2) = .ok q.node) :
    q.resort cap fuel = .ok q := by
  have hc : q.clearSubNodes.node = node.fresh q.node.x1 q.node.y1 q.node.x2 q.node.y2 := rfl
  simp only [resort, hc, h]

theorem queryRadius_leafOn {q : QuadTree V} (hl : LeafOn q) (he : Encl q)
    (x y radius : ℚ) : q.QueryRadius x y radius = .ok (bruteForce q x y radius) := by
  obtain ⟨a, b, c, d, hq⟩ := hl
  obtain ⟨-, -, hall⟩ := he
  unfold QueryRadius bruteForce
  rw [hq, node.queryRadius_mk]
  cases hi : (node.mk a b c d q.allPoints none none none none).intersectsCircle
      x y radius with
  | true => simp [node.isLeaf, node.subNodes]
  | false =>
    simp only [Bool.not_false, if_true]
    have hnil : q.allPoints.filter (fun p => p.distanceLe x y radius) = [] := by
      rw [List.filter_eq_nil_iff]
      intro p hp hd
      have hc := (contains_iff q p).mp (hall p hp)
      rw [hq] at hc
      have hn := node.intersectsCircle_of_near _ x y radius p hc.1 hc.2.1 hc.2.2.1
        hc.2.2.2 hd
      rw [hi] at hn
      cases hn
    rw [hnil]

end QuadTree

/-! ## The routing of points is kept by `insert` -/

namespace node

theorem pick_mk (a b c d : ℚ) (ps : List (Point V)) (s0 s1 s2 s3 : Option (node V))
    (p : Point V) :
    (mk a b c d ps s0 s1 s2 s3).pickSubNode p = (fresh a b c d : node V).pickSubNode p :=
  rfl

theorem routed_of_inner4R {cap : Nat} {n : node V} (h : Inner4R cap n) :
    Routed n ∧ Routed (n.setPoints []) := by
  obtain ⟨a, b, c, d, ps, c0, c1, c2, c3, rfl, -, ⟨r0, r1, r2, r3⟩, p0, p1, p2, p3⟩ := h
  exact ⟨Routed.inner a b c d ps c0 c1 c2 c3 r0 r1 r2 r3 p0 p1 p2 p3,
    Routed.inner a b c d [] c0 c1 c2 c3 r0 r1 r2 r3 p0 p1 p2 p3⟩

theorem inner4R_withChildren (cap : Nat) (n : node V) : Inner4R cap n.withChildren := by
  refine ⟨_, _, _, _, _, _, _, _, _, rfl, ⟨Shaped.leaf _ _ _ _ _ (Nat.zero_le _),
    Shaped.leaf _ _ _ _ _ (Nat.zero_le _), Shaped.leaf _ _ _ _ _ (Nat.zero_le _),
    Shaped.leaf _ _ _ _ _ (Nat.zero_le _)⟩, ⟨Routed.leaf _ _ _ _ _, Routed.leaf _ _ _ _ _,
    Routed.leaf _ _ _ _ _, Routed.leaf _ _ _ _ _⟩, ?_, ?_, ?_, ?_⟩ <;>
  · intro p hp
    simp [fresh, collect] at hp

theorem descend_routed {cap : Nat} {ins : node V → Point V → Except Fault (node V)}
    (hg : Good cap ins) (hr : GoodR cap ins) {n n1 : node V} {p : Point V}
    (hn : Inner4R cap n) (h : n.descend ins p = .ok n1) : Inner4R cap n1 := by
  obtain ⟨a, b, c, d, ps, c0, c1, c2, c3, rfl, ⟨h0, h1, h2, h3⟩, ⟨r0, r1, r2, r3⟩,
    p0, p1, p2, p3⟩ := hn
  obtain ⟨k, k1, hk, hins, rfl⟩ := descend_ok h
  rw [pick_mk] at hk ⊢
  generalize hi : (fresh a b c d : node V).pickSubNode p = i at hk
  have hmem : ∀ (cx : node V) (j : Fin 4), Shaped cap cx → ins cx p = .ok k1 →
      (∀ x ∈ cx.collect, (fresh a b c d : node V).pickSubNode x = j) → i = j →
      ∀ x ∈ k1.collect, (fresh a b c d : node V).pickSubNode x = j := by
    intro cx j hs hc hold hij x hx
    have hx2 := ((hg _ _ _ hs hc).2.mem_iff).mp hx
    rcases List.mem_cons.mp hx2 with rfl | hx3
    · rw [hi, hij]
    · exact hold x hx3
  fin_cases i
  · cases hk
    exact ⟨a, b, c, d, ps, k1, c1, c2, c3, rfl, ⟨(hg _ _ _ h0 hins).1, h1, h2, h3⟩,
      ⟨hr _ _ _ h0 r0 hins, r1, r2, r3⟩, hmem _ 0 h0 hins p0 rfl, p1, p2, p3⟩
  · cases hk
    exact ⟨a, b, c, d, ps, c0, k1, c2, c3, rfl, ⟨h0, (hg _ _ _ h1 hins).1, h2, h3⟩,
      ⟨r0, hr _ _ _ h1 r1 hins, r2, r3⟩, p0, hmem _ 1 h1 hins p1 rfl, p2, p3⟩
  · cases hk
    exact ⟨a, b, c, d, ps, c0, c1, k1, c3, rfl, ⟨h0, h1, (hg _ _ _ h2 hins).1, h3⟩,
      ⟨r0, r1, hr _ _ _ h2 r2 hins, r3⟩, p0, p1, hmem _ 2 h2 hins p2 rfl, p3⟩
  · cases hk
    exact ⟨a, b, c, d, ps, c0, c1, c2, k1, rfl, ⟨h0, h1, h2, (hg _ _ _ h3 hins).1⟩,
      ⟨r0, r1, r2, hr _ _ _ h3 r3 hins⟩, p0, p1, p2, hmem _ 3 h3 hins p3 rfl⟩

theorem distribute_routed {cap : Nat} {ins : node V → Point V → Except Fault (node V)}
    (hg : Good cap ins) (hr : GoodR cap ins) (qs : List (Point V)) :
    ∀ {n n1 : node V}, Inner4R cap n → distribute ins qs n = .ok n1 → Inner4R cap n1 := by
  induction qs with
  | nil => intro n n1 hn h; cases h; exact hn
  | cons q qs ih =>
    intro n n1 hn h
    obtain ⟨m, hm, h2⟩ := distribute_ok_cons h
    exact ih (descend_routed hg hr hn hm) h2

theorem insert_goodR (cap : Nat) : ∀ fuel : Nat, GoodR cap (insert (V := V) cap fuel) := by
  intro fuel
  induction fuel with
  | zero => intro n p r _ _ h; cases h
  | succ fuel ih =>
    intro n p r hn hrt h
    rw [insert_succ] at h
    cases hn with
    | leaf a b c d ps hlen =>
      simp only [isLeaf, subNodes, Option.isNone_none, Bool.not_true, Bool.false_eq_true,
        if_false, setPoints, points] at h
      split at h
      · obtain ⟨m, hm, rfl⟩ := splitWith_ok h
        exact (routed_of_inner4R (distribute_routed (insert_good cap fuel) ih _
          (inner4R_withChildren cap _) hm)).2
      · cases h
        exact Routed.leaf _ _ _ _ _
    | inner a b c d c0 c1 c2 c3 h0 h1 h2 h3 =>
      simp only [isLeaf, subNodes, Option.isNone_some, Bool.not_false, if_true] at h
      cases hrt with
      | inner _ _ _ _ _ _ _ _ _ r0 r1 r2 r3 p0 p1 p2 p3 =>
        have hi : Inner4R cap (mk a b c d [] (some c0) (some c1) (some c2) (some c3)) :=
          ⟨_, _, _, _, _, _, _, _, _, rfl, ⟨h0, h1, h2, h3⟩, ⟨r0, r1, r2, r3⟩, p0, p1, p2, p3⟩
        exact (routed_of_inner4R (descend_routed (insert_good cap fuel) ih hi h)).1

theorem insertList_routed {cap fuel : Nat} (ps : List (Point V)) : ∀ {n n1 : node V},
    Shaped cap n → Routed n → insertList cap fuel ps n = .ok n1 → Routed n1 := by
  induction ps with
  | nil => intro n n1 _ hr h; cases h; exact hr
  | cons p ps ih =>
    intro n n1 hn hr h
    obtain ⟨m, hm, h2⟩ := insertList_ok_cons h
    exact ih (shaped_insert hn hm) (insert_goodR cap fuel n p m hn hr hm) h2

theorem routed_nodes {n : node V} (hn : Routed n) :
    ∀ m ∈ n.nodes, ∀ (i : Fin 4) (c : node V), m.subNodes i = some c →
      ∀ p ∈ c.collect, m.pickSubNode p = i := by
  induction hn with
  | leaf a b c d ps =>
    intro m hm i k hk
    rw [nodes_mk] at hm
    simp only [nodesPtr_none, List.append_nil, List.mem_singleton] at hm
    subst hm
    fin_cases i <;> cases hk
  | inner a b c d ps c0 c1 c2 c3 _ _ _ _ p0 p1 p2 p3 ih0 ih1 ih2 ih3 =>
    intro m hm i k hk
    rw [nodes_mk] at hm
    simp only [nodesPtr_some, List.mem_cons, List.mem_append] at hm
    rcases hm with rfl | ((hm | hm) | hm) | hm
    · fin_cases i
      · cases hk; exact p0
      · cases hk; exact p1
      · cases hk; exact p2
      · cases hk; exact p3
    · exact ih0 m hm i k hk
    · exact ih1 m hm i k hk
    · exact ih2 m hm i k hk
    · exact ih3 m hm i k hk

end node

namespace QuadTree

theorem routed_Insert {cap fuel : Nat} {q q2 : QuadTree V} {p : Point V}
    (hq : Inv cap q) (hr : node.Routed q.node) (h : q.Insert cap fuel p = .ok q2) :
    node.Routed q2.node := by
  obtain ⟨q1, n, h1, hn, rfl⟩ := Insert_ok h
  have hinv1 := (prepare_ok h1).2.2 hq
  have hr1 : node.Routed q1.node := by
    rcases prepare_cases h1 with ⟨-, rfl⟩ | ⟨-, -, -, hins⟩
    · exact hr
    · exact node.insertList_routed _ (node.Shaped.leaf _ _ _ _ _ (Nat.zero_le _))
        (node.Routed.leaf _ _ _ _ _) hins
  exact node.insert_goodR cap fuel _ p n hinv1.1 hr1 hn

theorem routed_run {cap : Nat} {q0 q : QuadTree V} {ps : List (Point V)}
    (h : Run cap q0 ps q) : Inv cap q0 → node.Routed q0.node → node.Routed q.node := by
  induction h with
  | nil => exact fun _ hr => hr
  | snoc fuel p hrun hstep ih =>
    exact fun h0 hr => routed_Insert (inv_run hrun h0) (ih h0 hr) hstep

end QuadTree

/-! ## Unsplit trees over `float64` -/

namespace f64

namespace node

theorem insert_succF (cap fuel : Nat) (n : node V) (p : Point V) :
    insert cap (fuel + 1) n p =
      if !n.isLeaf then n.descend (insert cap fuel) p
      else if (n.setPoints (n.points ++ [p])).points.length > cap then
        splitWith (insert cap fuel) (n.setPoints (n.points ++ [p]))
      else .ok (n.setPoints (n.points ++ [p])) := by
  rw [insert]

theorem insert_leaf_ltF {cap : Nat} (fuel : Nat) (a b c d : F64) (ps : List (Point V))
    (p : Point V) (h : ps.length < cap) :
    insert cap (fuel + 1) (mk a b c d ps none none none none) p =
      .ok (mk a b c d (ps ++ [p]) none none none none) := by
  rw [insert_succF]
  simp only [isLeaf, subNodes, Option.isNone_none, Bool.not_true, Bool.false_eq_true,
    if_false, setPoints, points, List.length_append, List.length_singleton]
  rw [if_neg (by omega)]

theorem insertList_leafF {cap : Nat} (fuel : Nat) (a b c d : F64) (ps : List (Point V)) :
    ∀ M : List (Point V), M.length + ps.length ≤ cap →
      insertList cap (fuel + 1) ps (mk a b c d M none none none none) =
        .ok (mk a b c d (M ++ ps) none none none none) := by
  induction ps with
  | nil => intro M _; simp [insertList]
  | cons p ps ih =>
    intro M h
    simp only [List.length_cons] at h
    rw [insertList, insert_leaf_ltF fuel a b c d M p (by omega)]
    simp only
    rw [ih (M ++ [p]) (by simp only [List.length_append, List.length_singleton]; omega)]
    simp

theorem queryRadius_mkF (a b c d : F64) (ps : List (Point V))
    (s0 s1 s2 s3 : Option (node V)) (x y radius : F64) (acc : List (Point V)) :
    (mk a b c d ps s0 s1 s2 s3).queryRadius x y radius acc =
      if !(mk a b c d ps s0 s1 s2 s3).intersectsCircle x y radius then .ok acc
      else if !(mk a b c d ps s0 s1 s2 s3).isLeaf then
        (((queryRadiusPtr s0 x y radius
            (acc ++ ps.filter (fun p => F64.le (p.distance x y) radius))).bind
          (queryRadiusPtr s1 x y radius)).bind
          (queryRadiusPtr s2 x y radius)).bind (queryRadiusPtr s3 x y radius)
      else .ok (acc ++ ps.filter (fun p => F64.le (p.distance x y) radius)) := by
  rw [queryRadius]

end node

namespace QuadTree

theorem Insert_zeroF (cap : Nat) (q : QuadTree V) (p : Point V) :
    q.Insert cap 0 p = .error .outOfFuel := by
  unfold Insert
  split
  · rename_i e he
    split at he
    · unfold resort at he
      split at he
      · rename_i e2 he2
        cases he
        cases hl : (q.grow p).allPoints with
        | nil => rw [hl] at he2; cases he2
        | cons a l =>
          rw [hl] at he2
          simp only [node.insertList, node.insert] at he2
          cases he2
          rfl
      · cases he
    · cases he
  · rfl

theorem Insert_leafOnF {cap : Nat} (fuel : Nat) {q : QuadTree V} (p : Point V)
    (hq : LeafOn q) (hlen : q.allPoints.length < cap) :
    ∃ q1, q.Insert cap (fuel + 1) p = .ok q1 ∧ LeafOn q1 ∧
      q1.allPoints = q.allPoints ++ [p] := by
  obtain ⟨a, b, c, d, hq⟩ := hq
  obtain ⟨n, l⟩ := q
  simp only at hq hlen
  subst hq
  unfold Insert
  by_cases hc : (QuadTree.mk (node.mk a b c d l none none none none) l).contains p = true
  · simp only [hc, Bool.not_true, Bool.false_eq_true, if_false,
      node.insert_leaf_ltF fuel a b c d l p hlen]
    exact ⟨_, rfl, ⟨_, _, _, _, rfl⟩, rfl⟩
  · simp only [hc, Bool.not_false, if_true, resort, grow, clearSubNodes, node.x1,
      node.y1, node.x2, node.y2]
    rw [node.insertList_leafF fuel _ _ _ _ l [] (by simpa using hlen.le)]
    simp only [List.nil_append, node.insert_leaf_ltF fuel _ _ _ _ l p hlen]
    exact ⟨_, rfl, ⟨_, _, _, _, rfl⟩, rfl⟩

theorem leafOn_newF : LeafOn (NewQuadTree : QuadTree V) :=
  ⟨.fin 0, .fin 0, .fin 0, .fin 0, rfl⟩

theorem leafOn_runF {cap : Nat} {q0 q : QuadTree V} {ps : List (Point V)}
    (h : Run cap q0 ps q) : LeafOn q0 → q0.allPoints.length + ps.length ≤ cap →
    LeafOn q ∧ q.allPoints = q0.allPoints ++ ps := by
  induction h with
  | nil => exact fun h0 _ => ⟨h0, by simp⟩
  | snoc fuel p hrun hstep ih =>
    intro h0 hlen
    simp only [List.length_append, List.length_singleton] at hlen
    obtain ⟨hq, hall⟩ := ih h0 (by omega)
    have hl := congrArg List.length hall
    rw [List.length_append] at hl
    cases fuel with
    | zero => rw [Insert_zeroF] at hstep; cases hstep
    | succ fuel =>
      obtain ⟨q2, e, hq2, hall2⟩ := @Insert_leafOnF _ cap fuel _ p hq (by omega)
      rw [e] at hstep
      cases hstep
      exact ⟨hq2, by rw [hall2, hall, List.append_assoc]⟩

theorem InsertAll_leafOnF {cap : Nat} (fuel : Nat) (ps : List (Point V)) :
    ∀ q0 : QuadTree V, LeafOn q0 → q0.allPoints.length + ps.length ≤ cap →
      ∃ q, InsertAll cap (fuel + 1) q0 ps = .ok q := by
  induction ps with
  | nil => intro q0 _ _; exact ⟨q0, rfl⟩
  | cons p ps ih =>
    intro q0 h0 hlen
    simp only [List.length_cons] at hlen
    obtain ⟨q1, e, hq1, hall⟩ := @Insert_leafOnF _ cap fuel _ p h0 (by omega)
    have hlen1 : q1.allPoints.length + ps.length ≤ cap := by
      rw [hall, List.length_append, List.length_singleton]; omega
    obtain ⟨q, hq⟩ := ih q1 hq1 hlen1
    exact ⟨q, by rw [InsertAll, e]; exact hq⟩

theorem queryRadius_leafOnF {q : QuadTree V} (hl : LeafOn q) (x y radius : F64) :
    q.QueryRadius x y radius =
      .ok (if q.node.intersectsCircle x y radius = true then
        q.allPoints.filter (fun p => F64.le (p.distance x y) radius) else []) := by
  obtain ⟨a, b, c, d, hq⟩ := hl
  unfold QueryRadius
  rw [hq, node.queryRadius_mkF]
  cases hi : (node.mk a b c d q.allPoints none none none none).intersectsCircle
      x y radius with
  | true => simp [node.isLeaf, node.subNodes]
  | false => simp

theorem run_consF {cap fuel : Nat} {q0 q1 q : QuadTree V} {p : Point V}
    {ps : List (Point V)} (h1 : q0.Insert cap fuel p = .ok q1) (h : Run cap q1 ps q) :
    Run cap q0 (p :: ps) q := by
  induction h with
  | nil => exact @Run.snoc _ cap q0 q0 q1 [] fuel p (Run.nil q0) h1
  | snoc fuel2 p2 _ hstep ih => exact @Run.snoc _ cap q0 _ _ (p :: _) fuel2 p2 ih hstep

theorem run_of_InsertAllF {cap fuel : Nat} (ps : List (Point V)) :
    ∀ {q0 q : QuadTree V}, InsertAll cap fuel q0 ps = .ok q → Run cap q0 ps q := by
  induction ps with
  | nil => intro q0 q h; cases h; exact Run.nil _
  | cons p ps ih =>
    intro q0 q h
    unfold InsertAll at h
    split at h
    · cases h
    · rename_i q1 h1
      exact run_consF h1 (ih h)

theorem build_okF {cap fuel : Nat} {ps : List (Point V)}
    (h : (InsertAll cap fuel NewQuadTree ps).isOk = true) :
    InsertAll cap fuel NewQuadTree ps = .ok (build cap fuel ps) := by
  unfold build
  split
  · rename_i q hq; exact hq
  · rename_i e he; rw [he] at h; cases h

end QuadTree

/-- The root prune against the distance test of the code: `tinyPoint` passes the distance
test of the code for the query `(-5 * 2^-601, 0, 0)`, the square of the
difference underflowing to zero, and `QueryRadius` returns no point, the root
rectangle `(-2^-599, 0)-(0, 0)` failing `intersectsCircle`. -/
theorem root_prune_drops_accepted_point :
    F64.round64 (-(F64.scale 1 (-600))) = .fin (-(F64.scale 1 (-600))) ∧
      F64.round64 (-(F64.scale 5 (-601))) = .fin (-(F64.scale 5 (-601))) ∧
      (QuadTree.InsertAll maxObjects 1 NewQuadTree [tinyPoint]).isOk = true ∧
      F64.le (tinyPoint.distance (.fin (-(F64.scale 5 (-601)))) (.fin 0)) (.fin 0) = true ∧
      (QuadTree.build maxObjects 1 [tinyPoint]).QueryRadius (.fin (-(F64.scale 5 (-601))))
        (.fin 0) (.fin 0) = .ok [] := by
  decide!

end f64

/-! ## The properties of the specification -/

/-- C1, the code at a failing input: the eleven insertions of `elevenPoints`
return, the point `(1, 9)` is in the flat list at distance 0 from `(1, 9)`, and
`QueryRadius(1, 9, 0)` returns the empty list where the brute-force scan
returns that point. -/
theorem queryRadius_differs_from_scan :
    (QuadTree.InsertAll maxObjects 3 NewQuadTree elevenPoints).isOk = true ∧
      (QuadTree.build maxObjects 3 elevenPoints).QueryRadius 1 9 0 = .ok [] ∧
      bruteForce (QuadTree.build maxObjects 3 elevenPoints) 1 9 0 = [NewPoint 1 9 1] := by
  decide!

/-- C2, the code at a failing input: the twelve insertions of `elevenPoints`
and `(-3, 5)` return, the last of them growing the rectangle and rebuilding the
tree; the point `(1, 9)` is in the flat list and `QueryRadius(1, 9, 0)` returns
the empty list. -/
theorem self_query_misses_point :
    (QuadTree.InsertAll maxObjects 3 NewQuadTree
        (elevenPoints ++ [NewPoint (-3) 5 11])).isOk = true ∧
      NewPoint 1 9 1 ∈
        (QuadTree.build maxObjects 3 (elevenPoints ++ [NewPoint (-3) 5 11])).allPoints ∧
      (QuadTree.build maxObjects 3 (elevenPoints ++ [NewPoint (-3) 5 11])).QueryRadius 1 9 0 =
        .ok [] := by
  decide!

/-- C3, the code at a failing input: the ten points of `tenTopLeft` and
`(3, 10)` have pairwise different coordinates, the first ten insertions return,
and the eleventh does not return for any bound on the depth of the call stack
of `insert`. -/
theorem insert_diverges_on_distinct_points :
    ((tenTopLeft ++ [NewPoint 3 10 10]).map (fun p : Point Nat => (p.x, p.y))).Nodup ∧
      Reachable maxObjects (QuadTree.build maxObjects 1 tenTopLeft) ∧
      ∀ fuel, (QuadTree.build maxObjects 1 tenTopLeft).Insert maxObjects fuel
        (NewPoint 3 10 10) = .error .outOfFuel := by
  refine ⟨by decide!, QuadTree.reachable_build (by decide!), fun fuel => ?_⟩
  have hb : QuadTree.build maxObjects 1 tenTopLeft =
      ⟨node.mk 0 0 16 16 tenTopLeft none none none none, tenTopLeft⟩ := by decide!
  have hc : (QuadTree.mk (node.mk 0 0 16 16 tenTopLeft none none none none)
      tenTopLeft).contains (NewPoint 3 10 10) = true := by decide!
  have hs : node.Stuck 0 0 16 16 (tenTopLeft ++ [NewPoint 3 10 10]) := by
    refine ⟨by norm_num, by norm_num, ?_⟩
    decide!
  rw [hb, QuadTree.Insert]
  simp only [hc, Bool.not_true, Bool.false_eq_true, if_false]
  rw [node.insert_stuck maxObjects fuel 0 0 16 16 tenTopLeft _ rfl hs]

/-- C4 (no false positives, no duplicates): on every tree reached by `Insert`
calls that returned, `QueryRadius(x, y, r)` returns a list; each of its points
is a point of `allPoints` at Euclidean distance at most `r` from `(x, y)`, and
no point occurs in it more often than in `allPoints`. -/
theorem queryRadius_sound [DecidableEq V] (q : QuadTree V) (x y radius : ℚ)
    (h : Reachable maxObjects q) :
    ∃ res, q.QueryRadius x y radius = .ok res ∧
      (∀ p ∈ res, p ∈ q.allPoints ∧ p.distanceLe x y radius = true) ∧
      (∀ p, res.count p ≤ q.allPoints.count p) := by
  obtain ⟨hshape, hperm⟩ := QuadTree.inv_reachable h
  obtain ⟨res, e, hs⟩ := node.queryRadius_shaped x y radius hshape []
  refine ⟨res, by rw [QuadTree.QueryRadius, e]; rfl, ?_, ?_⟩
  · intro p hp
    have hm := hs.subset hp
    rw [List.mem_filter] at hm
    exact ⟨hperm.mem_iff.mp hm.1, hm.2⟩
  · intro p
    exact ((hs.trans (List.filter_sublist _)).count_le p).trans (le_of_eq (hperm.count_eq p))

/-- Witness of C4: the query `(0, 0, 2)` on the tree of `elevenPoints`. -/
theorem queryRadius_sound_witness :
    ∃ res, (QuadTree.build maxObjects 3 elevenPoints).QueryRadius 0 0 2 = .ok res ∧
      (∀ p ∈ res, p ∈ (QuadTree.build maxObjects 3 elevenPoints).allPoints ∧
        p.distanceLe 0 0 2 = true) ∧
      (∀ p, res.count p ≤ (QuadTree.build maxObjects 3 elevenPoints).allPoints.count p) :=
  queryRadius_sound _ 0 0 2 (QuadTree.reachable_build (by decide!))

/-- C5 (split threshold): `insert(p)` on a leaf with fewer than `maxObjects`
points returns the leaf with `p` appended and four nil children; on a leaf with
exactly `maxObjects` points a returning `insert(p)` leaves an internal node
with four non-nil children and no points of its own. A run of at most
`maxObjects` insertions into a new tree returns, and every such run ends in a
tree whose root is a leaf with as many points as were inserted, like
`allPoints`. -/
theorem split_threshold :
    (∀ (fuel : Nat) (a b c d : ℚ) (ps : List (Point V)) (p : Point V),
      ps.length < maxObjects →
      node.insert maxObjects (fuel + 1) (node.mk a b c d ps none none none none) p =
        .ok (node.mk a b c d (ps ++ [p]) none none none none)) ∧
    (∀ (fuel : Nat) (a b c d : ℚ) (ps : List (Point V)) (p : Point V) (n1 : node V),
      ps.length = maxObjects →
      node.insert maxObjects fuel (node.mk a b c d ps none none none none) p = .ok n1 →
      n1.points = [] ∧ n1.isLeaf = false ∧ ∀ i, (n1.subNodes i).isSome = true) ∧
    (∀ (ps : List (Point V)), ps.length ≤ maxObjects →
      (∀ fuel, ∃ q, QuadTree.InsertAll maxObjects (fuel + 1) NewQuadTree ps = .ok q) ∧
      ∀ q, Run maxObjects NewQuadTree ps q →
        q.node.points.length = ps.length ∧ (∀ i, q.node.subNodes i = none) ∧
          q.allPoints.length = ps.length) := by
  refine ⟨fun fuel a b c d ps p h => node.insert_leaf_lt fuel a b c d ps p h, ?_, ?_⟩
  · intro fuel a b c d ps p n1 hlen h
    obtain ⟨h1, h2⟩ := node.insert_leaf_full hlen h
    exact ⟨h1, by simpa [node.isLeaf] using h2 0, h2⟩
  · intro ps hlen
    refine ⟨fun fuel => QuadTree.InsertAll_leafOn fuel ps _ QuadTree.leafOn_new
      (by simpa [NewQuadTree] using hlen), fun q hrun => ?_⟩
    obtain ⟨a, b, c, d, hq⟩ :=
      QuadTree.leafOn_run hrun QuadTree.leafOn_new (by simpa [NewQuadTree] using hlen)
    have hall : q.allPoints = ps := by
      simpa [NewQuadTree] using QuadTree.allPoints_run hrun
    rw [hq, hall]
    refine ⟨rfl, fun i => ?_, rfl⟩
    fin_cases i <;> rfl

/-- Witness of C5: the tenth and the eleventh insertion of `elevenPoints` into
the root `(0,0)-(16,16)`, and the run of the first three points. -/
theorem split_threshold_witness :
    (node.insert maxObjects 1
        (node.mk 0 0 16 16 (elevenPoints.take 9) none none none none) (NewPoint 1 2 9) =
      .ok (node.mk 0 0 16 16 (elevenPoints.take 9 ++ [NewPoint 1 2 9])
        none none none none)) ∧
    ((QuadTree.build maxObjects 3 elevenPoints).node.points = [] ∧
      (QuadTree.build maxObjects 3 elevenPoints).node.isLeaf = false ∧
      ∀ i, ((QuadTree.build maxObjects 3 elevenPoints).node.subNodes i).isSome = true) ∧
    ((∀ fuel, ∃ q, QuadTree.InsertAll maxObjects (fuel + 1) NewQuadTree
        (elevenPoints.take 3) = .ok q) ∧
      ∀ q, Run maxObjects NewQuadTree (elevenPoints.take 3) q →
        q.node.points.length = (elevenPoints.take 3).length ∧
          (∀ i, q.node.subNodes i = none) ∧
          q.allPoints.length = (elevenPoints.take 3).length) :=
  ⟨split_threshold.1 0 0 0 16 16 (elevenPoints.take 9) (NewPoint 1 2 9) (by decide),
    split_threshold.2.1 2 0 0 16 16 (elevenPoints.take 10) (NewPoint 2 2 10) _
      (by decide) (by decide!),
    split_threshold.2.2 (elevenPoints.take 3) (by decide)⟩

/-- C6 (growth monotonicity): after an `Insert(p)` that returns, each side of
the root rectangle lies at or outside its old position, from every state and
for every point; hence the root rectangle never shrinks over any sequence of
insertions. -/
theorem growth_monotone (q q1 : QuadTree V) :
    (∀ fuel p, q.Insert maxObjects fuel p = .ok q1 →
      q1.node.x1 ≤ q.node.x1 ∧ q1.node.y1 ≤ q.node.y1 ∧ q.node.x2 ≤ q1.node.x2 ∧
        q.node.y2 ≤ q1.node.y2) ∧
    (∀ ps, Run maxObjects q ps q1 →
      q1.node.x1 ≤ q.node.x1 ∧ q1.node.y1 ≤ q.node.y1 ∧ q.node.x2 ≤ q1.node.x2 ∧
        q.node.y2 ≤ q1.node.y2) :=
  ⟨fun _ _ h => QuadTree.rect_Insert h, fun _ h => QuadTree.rect_run h⟩

/-- Witness of C6: the insertion of `(-3, 5)` into the tree of `elevenPoints`,
and the run of `elevenPoints` from the new tree. -/
theorem growth_monotone_witness :
    ((QuadTree.build maxObjects 3 (elevenPoints ++ [NewPoint (-3) 5 11])).node.x1 ≤
        (QuadTree.build maxObjects 3 elevenPoints).node.x1 ∧
      (QuadTree.build maxObjects 3 (elevenPoints ++ [NewPoint (-3) 5 11])).node.y1 ≤
        (QuadTree.build maxObjects 3 elevenPoints).node.y1 ∧
      (QuadTree.build maxObjects 3 elevenPoints).node.x2 ≤
        (QuadTree.build maxObjects 3 (elevenPoints ++ [NewPoint (-3) 5 11])).node.x2 ∧
      (QuadTree.build maxObjects 3 elevenPoints).node.y2 ≤
        (QuadTree.build maxObjects 3 (elevenPoints ++ [NewPoint (-3) 5 11])).node.y2) ∧
    ((QuadTree.build maxObjects 3 elevenPoints).node.x1 ≤ (NewQuadTree (V := Nat)).node.x1 ∧
      (QuadTree.build maxObjects 3 elevenPoints).node.y1 ≤ (NewQuadTree (V := Nat)).node.y1 ∧
      (NewQuadTree (V := Nat)).node.x2 ≤ (QuadTree.build maxObjects 3 elevenPoints).node.x2 ∧
      (NewQuadTree (V := Nat)).node.y2 ≤ (QuadTree.build maxObjects 3 elevenPoints).node.y2) :=
  ⟨(growth_monotone _ _).1 3 (NewPoint (-3) 5 11) (by decide!),
    (growth_monotone _ _).2 elevenPoints
      (QuadTree.run_of_InsertAll _ (@QuadTree.build_ok _ maxObjects 3 _ (by decide!)))⟩

/-- C7 (tree/flat-list agreement): in every state reached from `NewQuadTree` by
`Insert` calls that returned, with or without growth and rebuild, the points
collected from the point lists of all nodes are, as a multiset, the points of
`allPoints`. -/
theorem tree_agrees_with_flat_list (q : QuadTree V) (h : Reachable maxObjects q) :
    List.Perm q.node.collect q.allPoints :=
  (QuadTree.inv_reachable h).2

/-- Witness of C7: the tree of `elevenPoints` followed by `(-3, 5)`, whose
insertion grows the rectangle and rebuilds the tree. -/
theorem tree_agrees_with_flat_list_witness :
    List.Perm (QuadTree.build maxObjects 3 (elevenPoints ++ [NewPoint (-3) 5 11])).node.collect
      (QuadTree.build maxObjects 3 (elevenPoints ++ [NewPoint (-3) 5 11])).allPoints :=
  tree_agrees_with_flat_list _ (QuadTree.reachable_build (by decide!))

/-- C8 (the flat list is append-only and in insertion order): an `Insert(p)`
that returns leaves the flat list `L` as `L ++ [p]`, also when it rebuilds the
tree; after the insertion of `ps` into a new tree the flat list is `ps`. -/
theorem allPoints_append_only :
    (∀ (fuel : Nat) (q q1 : QuadTree V) (p : Point V),
      q.Insert maxObjects fuel p = .ok q1 → q1.allPoints = q.allPoints ++ [p]) ∧
    (∀ (ps : List (Point V)) (q : QuadTree V),
      Run maxObjects NewQuadTree ps q → q.allPoints = ps) :=
  ⟨fun _ _ _ _ h => QuadTree.allPoints_Insert h,
    fun _ _ h => by simpa [NewQuadTree] using QuadTree.allPoints_run h⟩

/-- Witness of C8: the rebuilding insertion of `(-3, 5)` after `elevenPoints`,
and the run of `elevenPoints` from the new tree. -/
theorem allPoints_append_only_witness :
    (QuadTree.build maxObjects 3 (elevenPoints ++ [NewPoint (-3) 5 11])).allPoints =
        (QuadTree.build maxObjects 3 elevenPoints).allPoints ++ [NewPoint (-3) 5 11] ∧
      (QuadTree.build maxObjects 3 elevenPoints).allPoints = elevenPoints :=
  ⟨allPoints_append_only.1 3 _ _ (NewPoint (-3) 5 11) (by decide!),
    allPoints_append_only.2 elevenPoints _
      (QuadTree.run_of_InsertAll _ (@QuadTree.build_ok _ maxObjects 3 _ (by decide!)))⟩

/-- C9 (negative radius): on every tree reached by `Insert` calls that
returned, `QueryRadius(x, y, r)` with `r < 0` returns, without a fault, the
empty result. -/
theorem queryRadius_negative (q : QuadTree V) (x y radius : ℚ)
    (h : Reachable maxObjects q) (hr : radius < 0) :
    q.QueryRadius x y radius = .ok [] := by
  obtain ⟨res, e, hs⟩ := node.queryRadius_shaped x y radius (QuadTree.inv_reachable h).1 []
  have hnil : q.node.collect.filter (fun p => p.distanceLe x y radius) = [] := by
    rw [List.filter_eq_nil_iff]
    intro p _
    simp [distanceLe_neg p x y hr]
  rw [hnil, List.sublist_nil] at hs
  rw [QuadTree.QueryRadius, e, hs]
  rfl

/-- Witness of C9: the query `(1, 9, -1)` on the tree of `elevenPoints`. -/
theorem queryRadius_negative_witness :
    (QuadTree.build maxObjects 3 elevenPoints).QueryRadius 1 9 (-1) = .ok [] :=
  queryRadius_negative _ 1 9 (-1) (QuadTree.reachable_build (by decide!)) (by norm_num)

/-- C10, amended (quadrant selection of `pickSubNode`): with `(midX, midY)` the
midpoint of the node, the result is 0 iff `p.x <= midX` and `p.y < midY`, 1 iff
`p.x <= midX` and `p.y >= midY`, 2 iff `p.x > midX` and `p.y < midY`, 3 iff
`p.x > midX` and `p.y >= midY`; a point on the vertical midline goes to child 0
or 1, a point on the horizontal midline goes to child 1 or 3, the side
`p.y >= midY`. -/
theorem pickSubNode_spec (n : node V) (p : Point V) :
    (n.pickSubNode p = 0 ↔ p.x ≤ (n.x1 + n.x2) / 2 ∧ p.y < (n.y1 + n.y2) / 2) ∧
    (n.pickSubNode p = 1 ↔ p.x ≤ (n.x1 + n.x2) / 2 ∧ p.y ≥ (n.y1 + n.y2) / 2) ∧
    (n.pickSubNode p = 2 ↔ p.x > (n.x1 + n.x2) / 2 ∧ p.y < (n.y1 + n.y2) / 2) ∧
    (n.pickSubNode p = 3 ↔ p.x > (n.x1 + n.x2) / 2 ∧ p.y ≥ (n.y1 + n.y2) / 2) ∧
    (p.x = (n.x1 + n.x2) / 2 → n.pickSubNode p = 0 ∨ n.pickSubNode p = 1) ∧
    (p.y = (n.y1 + n.y2) / 2 → n.pickSubNode p = 1 ∨ n.pickSubNode p = 3) := by
  have h01 : (0 : Fin 4) ≠ 1 := by decide
  have h02 : (0 : Fin 4) ≠ 2 := by decide
  have h03 : (0 : Fin 4) ≠ 3 := by decide
  have h12 : (1 : Fin 4) ≠ 2 := by decide
  have h13 : (1 : Fin 4) ≠ 3 := by decide
  have h23 : (2 : Fin 4) ≠ 3 := by decide
  unfold node.pickSubNode
  generalize (n.x1 + n.x2) / 2 = mx
  generalize (n.y1 + n.y2) / 2 = my
  rcases le_or_lt p.x mx with hx | hx <;> rcases lt_or_le p.y my with hy | hy
  · simp only [if_pos hx, if_pos hy]
    refine ⟨?_, ?_, ?_, ?_, ?_, ?_⟩
    · simp [hx, hy]
    · simp [h01, not_le.mpr hy]
    · simp [h02, not_lt.mpr hx]
    · simp [h03, not_lt.mpr hx]
    · simp
    · intro h; exact absurd hy (by rw [h]; exact lt_irrefl _)
  · simp only [if_pos hx, if_neg (not_lt.mpr hy)]
    refine ⟨?_, ?_, ?_, ?_, ?_, ?_⟩
    · simp [h01.symm, not_lt.mpr hy]
    · simp [hx, hy]
    · simp [h12, not_lt.mpr hx]
    · simp [h13, not_lt.mpr hx]
    · simp
    · simp
  · simp only [if_neg (not_le.mpr hx), if_pos hy]
    refine ⟨?_, ?_, ?_, ?_, ?_, ?_⟩
    · simp [h02.symm, not_le.mpr hx]
    · simp [h12.symm, not_le.mpr hx]
    · simp [hx, hy]
    · simp [h23, not_le.mpr hy]
    · intro h; exact absurd hx (by rw [h]; exact lt_irrefl _)
    · intro h; exact absurd hy (by rw [h]; exact lt_irrefl _)
  · simp only [if_neg (not_le.mpr hx), if_neg (not_lt.mpr hy)]
    refine ⟨?_, ?_, ?_, ?_, ?_, ?_⟩
    · simp [h03.symm, not_le.mpr hx]
    · simp [h13.symm, not_le.mpr hx]
    · simp [h23.symm, not_lt.mpr hy]
    · simp [hx, hy]
    · intro h; exact absurd hx (by rw [h]; exact lt_irrefl _)
    · simp

/-- Witness of C10: the centre `(1, 1)` of the node `(0,0)-(2,2)` lies on both
midlines. -/
theorem pickSubNode_spec_witness :
    ((node.fresh 0 0 2 2 : node Nat).pickSubNode (NewPoint 1 1 0) = 0 ∨
      (node.fresh 0 0 2 2 : node Nat).pickSubNode (NewPoint 1 1 0) = 1) ∧
    ((node.fresh 0 0 2 2 : node Nat).pickSubNode (NewPoint 1 1 0) = 1 ∨
      (node.fresh 0 0 2 2 : node Nat).pickSubNode (NewPoint 1 1 0) = 3) :=
  ⟨(pickSubNode_spec _ _).2.2.2.2.1 (by decide!), (pickSubNode_spec _ _).2.2.2.2.2 (by decide!)⟩

/-- Counterexample to C10 as stated: in the node `(0,0)-(2,2)` the point
`(2, 1)` lies on the horizontal midline and goes to child 3, the top-right
child, not to a child of the bottom half (0 or 2). -/
theorem pickSubNode_horizontal_midline_top :
    (NewPoint 2 1 0 : Point Nat).y =
        ((node.fresh 0 0 2 2 : node Nat).y1 + (node.fresh 0 0 2 2 : node Nat).y2) / 2 ∧
      (node.fresh 0 0 2 2 : node Nat).pickSubNode (NewPoint 2 1 0) = 3 ∧
      ¬ ((node.fresh 0 0 2 2 : node Nat).pickSubNode (NewPoint 2 1 0) = 0 ∨
        (node.fresh 0 0 2 2 : node Nat).pickSubNode (NewPoint 2 1 0) = 2) := by
  decide!

/-- C11, the code at failing inputs. With capacity 2 the four insertions of
`TestQuadTree_Insert_CorrectSubNodes` return and leave `(-1,-1)` under
`subNodes[0]`, `(-1,1)` under `subNodes[1]`, `(1,-1)` under `subNodes[2]` and
`(1,1)` under `subNodes[3]`. With capacity `maxObjects`, after `elevenPoints`
the root `(0,0)-(16,16)` has split at `(8, 8)`, and the point `(9, 9)`, strictly
right of and above the midpoint, is then held under `subNodes[3]`, not under
`subNodes[0]`. -/
theorem quadrants_differ_from_test :
    ((QuadTree.InsertAll 2 2 NewQuadTree fourQuadrants).isOk = true ∧
      (QuadTree.build 2 2 fourQuadrants).node.under 0 = [NewPoint (-1) (-1) 3] ∧
      (QuadTree.build 2 2 fourQuadrants).node.under 1 = [NewPoint (-1) 1 2] ∧
      (QuadTree.build 2 2 fourQuadrants).node.under 2 = [NewPoint 1 (-1) 4] ∧
      (QuadTree.build 2 2 fourQuadrants).node.under 3 = [NewPoint 1 1 1]) ∧
    ((QuadTree.InsertAll maxObjects 3 NewQuadTree
        (elevenPoints ++ [NewPoint 9 9 11])).isOk = true ∧
      (QuadTree.build maxObjects 3 (elevenPoints ++ [NewPoint 9 9 11])).node.rect =
        (0, 0, 16, 16) ∧
      NewPoint 9 9 11 ∈
        (QuadTree.build maxObjects 3 (elevenPoints ++ [NewPoint 9 9 11])).node.under 3 ∧
      NewPoint 9 9 11 ∉
        (QuadTree.build maxObjects 3 (elevenPoints ++ [NewPoint 9 9 11])).node.under 0) := by
  decide!

/-- C12, the code at a failing input: `split` on the root `(0,0)-(16,16)` with
the points of `elevenPoints` returns the root of the tree of `elevenPoints`,
whose child 1 has the rectangle `(8,0)-(16,8)` and whose child 2 has the
rectangle `(0,8)-(8,16)`; the point `(1, 9)` lies in the rectangle of the root,
`pickSubNode` answers 1 for it, and the rectangle of child 1 does not contain
it. -/
theorem child_rectangle_misses_point :
    node.split maxObjects 1 (node.mk 0 0 16 16 elevenPoints none none none none) =
        .ok (QuadTree.build maxObjects 3 elevenPoints).node ∧
      (QuadTree.build maxObjects 3 elevenPoints).node.subNodes 1 =
        some (node.mk 8 0 16 8 [NewPoint 8 8 0, NewPoint 1 9 1] none none none none) ∧
      (QuadTree.build maxObjects 3 elevenPoints).node.subNodes 2 =
        some (node.fresh 0 8 8 16) ∧
      (QuadTree.build maxObjects 3 elevenPoints).node.encloses (NewPoint 1 9 1) = true ∧
      (QuadTree.build maxObjects 3 elevenPoints).node.pickSubNode (NewPoint 1 9 1) = 1 ∧
      (node.mk 8 0 16 8 [NewPoint 8 8 0, NewPoint 1 9 1] none none none none).encloses
        (NewPoint 1 9 1) = false := by
  decide!

/-- C13 (the prune test is conservative): if a point of the rectangle of a
node lies at Euclidean distance at most `r` from `(x, y)`, `intersectsCircle`
answers true; it answers false exactly when `x+r < x1` or `x-r > x2` or
`y+r < y1` or `y-r > y2`. -/
theorem intersectsCircle_conservative (n : node V) (x y radius : ℚ) :
    (∀ p : Point V, n.x1 ≤ p.x → p.x ≤ n.x2 → n.y1 ≤ p.y → p.y ≤ n.y2 →
      p.distanceLe x y radius = true → n.intersectsCircle x y radius = true) ∧
    (n.intersectsCircle x y radius = false ↔
      (x + radius < n.x1 ∨ x - radius > n.x2 ∨ y + radius < n.y1 ∨ y - radius > n.y2)) :=
  ⟨fun p h1 h2 h3 h4 hd => node.intersectsCircle_of_near n x y radius p h1 h2 h3 h4 hd,
    node.intersectsCircle_eq_false_iff n x y radius⟩

/-- Witness of C13: the rectangle `(0,0)-(8,8)`, its corner `(8, 8)` and the
query `(9, 9, 2)`. -/
theorem intersectsCircle_conservative_witness :
    (node.fresh 0 0 8 8 : node Nat).intersectsCircle 9 9 2 = true :=
  (intersectsCircle_conservative (node.fresh 0 0 8 8 : node Nat) 9 9 2).1 (NewPoint 8 8 0)
    (by decide!) (by decide!) (by decide!) (by decide!) (by decide!)

/-- C14 (growth by twice the overshoot): after `grow(p)` each side that `p`
violates has moved outward by twice the overshoot and every other side is
unchanged, the four sides being adjusted independently. -/
theorem grow_twice_overshoot (q : QuadTree V) (p : Point V) :
    (q.grow p).node.x1 = (if p.x < q.node.x1 then q.node.x1 - 2 * (q.node.x1 - p.x)
        else q.node.x1) ∧
      (q.grow p).node.x2 = (if p.x > q.node.x2 then q.node.x2 + 2 * (p.x - q.node.x2)
        else q.node.x2) ∧
      (q.grow p).node.y1 = (if p.y < q.node.y1 then q.node.y1 - 2 * (q.node.y1 - p.y)
        else q.node.y1) ∧
      (q.grow p).node.y2 = (if p.y > q.node.y2 then q.node.y2 + 2 * (p.y - q.node.y2)
        else q.node.y2) := by
  obtain ⟨e1, e2, e3, e4⟩ := QuadTree.grow_sides q p
  refine ⟨?_, ?_, ?_, ?_⟩
  · rw [e1]; split_ifs <;> ring
  · rw [e3]; split_ifs <;> ring
  · rw [e2]; split_ifs <;> ring
  · rw [e4]; split_ifs <;> ring

/-- C15 (node shape invariant): in every tree reached from `NewQuadTree` by
`Insert` calls that returned, every node is a leaf with four nil children and
at most `maxObjects` points, or an internal node with four non-nil children
and no points of its own; `isLeaf`, which reads `subNodes[0]` only, tells the
two apart. -/
theorem node_shape_invariant (q : QuadTree V) (h : Reachable maxObjects q) :
    ∀ m ∈ q.node.nodes,
      ((∀ i, m.subNodes i = none) ∧ m.points.length ≤ maxObjects ∧ m.isLeaf = true) ∨
      ((∀ i, (m.subNodes i).isSome = true) ∧ m.points = [] ∧ m.isLeaf = false) :=
  node.shaped_nodes (QuadTree.inv_reachable h).1

/-- Witness of C15: the root of the tree of `elevenPoints` followed by
`(-3, 5)`. -/
theorem node_shape_invariant_witness :
    ((∀ i, (QuadTree.build maxObjects 3
          (elevenPoints ++ [NewPoint (-3) 5 11])).node.subNodes i = none) ∧
        (QuadTree.build maxObjects 3
          (elevenPoints ++ [NewPoint (-3) 5 11])).node.points.length ≤ maxObjects ∧
        (QuadTree.build maxObjects 3
          (elevenPoints ++ [NewPoint (-3) 5 11])).node.isLeaf = true) ∨
      ((∀ i, ((QuadTree.build maxObjects 3
          (elevenPoints ++ [NewPoint (-3) 5 11])).node.subNodes i).isSome = true) ∧
        (QuadTree.build maxObjects 3
          (elevenPoints ++ [NewPoint (-3) 5 11])).node.points = [] ∧
        (QuadTree.build maxObjects 3
          (elevenPoints ++ [NewPoint (-3) 5 11])).node.isLeaf = false) :=
  node_shape_invariant _ (QuadTree.reachable_build (by decide!)) _ (node.mem_nodes_self _)

/-- C16 (routing invariant of the rebuilding variant): in every tree reached
from `NewQuadTree` by `Insert` calls that returned, for every node `m` of the
tree, the root included and also after growth, and every point `p` held
anywhere below `m.subNodes[i]`, `pickSubNode` of `m` answers `i` for `p`. -/
theorem routing_invariant (q : QuadTree V) (h : Reachable maxObjects q) :
    ∀ m ∈ q.node.nodes, ∀ (i : Fin 4) (c : node V), m.subNodes i = some c →
      ∀ p ∈ c.collect, m.pickSubNode p = i := by
  obtain ⟨ps, hrun⟩ := h
  exact node.routed_nodes (QuadTree.routed_run hrun (QuadTree.inv_new maxObjects)
    (node.Routed.leaf _ _ _ _ _))

/-- Witness of C16: the root of the tree of `elevenPoints`, its child 0 and the
point `(1, 1)` held there. -/
theorem routing_invariant_witness :
    (QuadTree.build maxObjects 3 elevenPoints).node.pickSubNode (NewPoint 1 1 2) = 0 :=
  routing_invariant _ (QuadTree.reachable_build (by decide!)) _ (node.mem_nodes_self _) 0
    (node.mk 0 0 8 8 (elevenPoints.drop 2) none none none none) (by decide!)
    (NewPoint 1 1 2) (by decide!)

/-- C17 (the two variants are not equivalent): after the twelve insertions of
`twelvePoints`, the last of which grows the root rectangle, the variant without
rebuild holds the earlier point `(1, 1)` under `subNodes[0]` of the root while
`pickSubNode` of the root answers 3 for it; the rebuilding variant holds it
under `subNodes[3]`. -/
theorem variants_differ :
    ((variant.Quadtree.InsertAll maxObjects 3 variant.NewQuadTree
        variant.twelvePoints).isOk = true ∧
      variant.NewPoint 1 1 ∈
        (variant.Quadtree.build maxObjects 3 variant.twelvePoints).node.under 0 ∧
      (variant.Quadtree.build maxObjects 3 variant.twelvePoints).node.pickSubNode
        (variant.NewPoint 1 1) = 3) ∧
    ((QuadTree.InsertAll maxObjects 8 NewQuadTree variant.twelvePoints).isOk = true ∧
      variant.NewPoint 1 1 ∈
        (QuadTree.build maxObjects 8 variant.twelvePoints).node.under 3 ∧
      (QuadTree.build maxObjects 8 variant.twelvePoints).node.pickSubNode
        (variant.NewPoint 1 1) = 3) := by
  decide!

/-- C18 (the bounds enclose all points): on an ordered rectangle `grow(p)` is
followed by `contains(p)`; hence in every state reached from `NewQuadTree` by
`Insert` calls that returned the root rectangle is ordered and contains every
point of `allPoints`. -/
theorem bounds_enclose_points :
    (∀ (q : QuadTree V) (p : Point V), q.node.x1 ≤ q.node.x2 → q.node.y1 ≤ q.node.y2 →
      (q.grow p).contains p = true) ∧
    (∀ q : QuadTree V, Reachable maxObjects q →
      q.node.x1 ≤ q.node.x2 ∧ q.node.y1 ≤ q.node.y2 ∧
        ∀ p ∈ q.allPoints, q.contains p = true) := by
  refine ⟨fun q p hx hy => (QuadTree.grow_encloses q p hx hy).2.2.1, ?_⟩
  rintro q ⟨ps, hrun⟩
  exact QuadTree.encl_run hrun QuadTree.encl_new

/-- Witness of C18: the growth of the root `(0,0)-(16,16)` of the tree of
`elevenPoints` by `(-3, 20)`, and the tree of `elevenPoints` followed by
`(-3, 5)`. -/
theorem bounds_enclose_points_witness :
    ((QuadTree.build maxObjects 3 elevenPoints).grow (NewPoint (-3) 20 11)).contains
        (NewPoint (-3) 20 11) = true ∧
      ((QuadTree.build maxObjects 3 (elevenPoints ++ [NewPoint (-3) 5 11])).node.x1 ≤
          (QuadTree.build maxObjects 3 (elevenPoints ++ [NewPoint (-3) 5 11])).node.x2 ∧
        (QuadTree.build maxObjects 3 (elevenPoints ++ [NewPoint (-3) 5 11])).node.y1 ≤
          (QuadTree.build maxObjects 3 (elevenPoints ++ [NewPoint (-3) 5 11])).node.y2 ∧
        ∀ p ∈ (QuadTree.build maxObjects 3 (elevenPoints ++ [NewPoint (-3) 5 11])).allPoints,
          (QuadTree.build maxObjects 3 (elevenPoints ++ [NewPoint (-3) 5 11])).contains p =
            true) :=
  ⟨bounds_enclose_points.1 _ _ (by decide!) (by decide!),
    bounds_enclose_points.2 _ (QuadTree.reachable_build (by decide!))⟩

/-- C19 (the tree is the rebuild of its flat list): in every state reached
from `NewQuadTree` by `Insert` calls that returned, the insertion of
`allPoints`, in order, into the empty node with the rectangle of the root
returns the root, and `resort` returns the state unchanged, for every bound on
the call depth from some bound on. -/
theorem tree_is_rebuild (q : QuadTree V) (h : Reachable maxObjects q) :
    ∃ fuel0, ∀ fuel, fuel0 ≤ fuel →
      node.insertList maxObjects fuel q.allPoints
        (node.fresh q.node.x1 q.node.y1 q.node.x2 q.node.y2) = .ok q.node ∧
      q.resort maxObjects fuel = .ok q := by
  obtain ⟨ps, hrun⟩ := h
  obtain ⟨F, hF⟩ := QuadTree.rebuilt_run hrun (QuadTree.rebuilt_new maxObjects)
  exact ⟨F, fun f hf => ⟨hF f hf, QuadTree.resort_of_insertList (hF f hf)⟩⟩

/-- Witness of C19: the tree of `elevenPoints` followed by `(-3, 5)`. -/
theorem tree_is_rebuild_witness :
    ∃ fuel0, ∀ fuel, fuel0 ≤ fuel →
      node.insertList maxObjects fuel
        (QuadTree.build maxObjects 3 (elevenPoints ++ [NewPoint (-3) 5 11])).allPoints
        (node.fresh (QuadTree.build maxObjects 3 (elevenPoints ++ [NewPoint (-3) 5 11])).node.x1
          (QuadTree.build maxObjects 3 (elevenPoints ++ [NewPoint (-3) 5 11])).node.y1
          (QuadTree.build maxObjects 3 (elevenPoints ++ [NewPoint (-3) 5 11])).node.x2
          (QuadTree.build maxObjects 3 (elevenPoints ++ [NewPoint (-3) 5 11])).node.y2) =
        .ok (QuadTree.build maxObjects 3 (elevenPoints ++ [NewPoint (-3) 5 11])).node ∧
      (QuadTree.build maxObjects 3 (elevenPoints ++ [NewPoint (-3) 5 11])).resort
        maxObjects fuel =
        .ok (QuadTree.build maxObjects 3 (elevenPoints ++ [NewPoint (-3) 5 11])) :=
  tree_is_rebuild _ (QuadTree.reachable_build (by decide!))

/-- C20, amended (unsplit trees answer in insertion order, by the tests of the
code): over `float64`, the insertion of at most `maxObjects` points `ps` into a
new tree returns, and in the tree it leaves the flat list is `ps` and
`QueryRadius(x, y, r)` returns the points of the flat list that pass the test
`p.distance(x, y) <= r` as the code computes it, in insertion order, if the
root rectangle passes `intersectsCircle(x, y, r)`, and no point otherwise. -/
theorem unsplit_query_as_computed (ps : List (f64.Point V)) (x y radius : F64)
    (hlen : ps.length ≤ maxObjects) :
    (∀ fuel, ∃ q, f64.QuadTree.InsertAll maxObjects (fuel + 1) f64.NewQuadTree ps = .ok q) ∧
    ∀ q, f64.Run maxObjects f64.NewQuadTree ps q →
      q.allPoints = ps ∧
        q.QueryRadius x y radius =
          .ok (if q.node.intersectsCircle x y radius = true then
            q.allPoints.filter (fun p => F64.le (p.distance x y) radius) else []) := by
  refine ⟨fun fuel => f64.QuadTree.InsertAll_leafOnF fuel ps _ f64.QuadTree.leafOn_newF
    (by simpa [f64.NewQuadTree] using hlen), fun q h => ?_⟩
  obtain ⟨hl, hall⟩ := f64.QuadTree.leafOn_runF h f64.QuadTree.leafOn_newF
    (by simpa [f64.NewQuadTree] using hlen)
  exact ⟨by simpa [f64.NewQuadTree] using hall, f64.QuadTree.queryRadius_leafOnF hl x y radius⟩

/-- Witness of C20: the tree of `f64.threePoints` and the query `(1, 1, 2)`. -/
theorem unsplit_query_as_computed_witness :
    (f64.QuadTree.build maxObjects 1 f64.threePoints).allPoints = f64.threePoints ∧
      (f64.QuadTree.build maxObjects 1 f64.threePoints).QueryRadius (.fin 1) (.fin 1)
          (.fin 2) =
        .ok (if (f64.QuadTree.build maxObjects 1 f64.threePoints).node.intersectsCircle
            (.fin 1) (.fin 1) (.fin 2) = true then
          (f64.QuadTree.build maxObjects 1 f64.threePoints).allPoints.filter
            (fun p => F64.le (p.distance (.fin 1) (.fin 1)) (.fin 2)) else []) :=
  (unsplit_query_as_computed f64.threePoints (.fin 1) (.fin 1) (.fin 2) (by decide)).2 _
    (f64.QuadTree.run_of_InsertAllF _ (@f64.QuadTree.build_okF _ maxObjects 1 _ (by decide!)))

/-- Counterexample to C20 as stated: the coordinates `2^700`, `0` and the
radius `2^1000` are `float64` values; the insertion of `f64.farPoint` into a
new tree returns; its Euclidean distance `2^700` from `(0, 0)` is at most
`2^1000`, so the filter of the flat list by Euclidean distance is the point
itself; `QueryRadius(0, 0, 2^1000)` returns no point, `math.Pow` overflowing to
`+Inf`. -/
theorem query_differs_from_euclidean_filter :
    F64.round64 (F64.scale 1 700) = .fin (F64.scale 1 700) ∧
      F64.round64 (F64.scale 1 1000) = .fin (F64.scale 1 1000) ∧
      (f64.QuadTree.InsertAll maxObjects 1 f64.NewQuadTree [f64.farPoint]).isOk = true ∧
      (f64.QuadTree.build maxObjects 1 [f64.farPoint]).allPoints.filter
        (fun p => p.euclidLe (.fin 0) (.fin 0) (.fin (F64.scale 1 1000))) = [f64.farPoint] ∧
      f64.farPoint.distance (.fin 0) (.fin 0) = .inf false ∧
      (f64.QuadTree.build maxObjects 1 [f64.farPoint]).QueryRadius (.fin 0) (.fin 0)
        (.fin (F64.scale 1 1000)) = .ok [] := by
  decide!

end quadtree
